import Mathlib

/-! Search benchmark (`search.c`): embedding and verification.

The C program fills a static array with `0 .. size-1`, picks a search algorithm from a
table by the first character of its first argument and runs it once with key `size - 2`.

Conventions of the embedding.

* `uint32_t` values are natural numbers below `2 ^ 32`; every assignment to a `uint32_t`
  object is `toU32` (reduction modulo `2 ^ 32`).
* The literals `0UL`, `1UL`, `2UL` have type `unsigned long`.  The source does not fix the
  width of that type, so it is the parameter `ulongBits` (64 on LP64 targets, 32 where
  `long` has 32 bits).  An operation with an `unsigned long` operand is carried out modulo
  `2 ^ ulongBits` and truncated when stored into a `uint32_t`.
* A buffer is a partial map from indices to values: `none` is a cell outside the object
  the pointer refers to.  Accessing such a cell is reported as `Fault.bufferIndex`.
* `binarySearch` has a `while` loop without a bound, so it takes a fuel argument that
  counts evaluations of the loop condition; `none` means the fuel ran out.
* `int64_t` results are integers; indices are returned as non-negative integers.

The static dataset has `2 ^ 32 - 1` four-byte cells, so the program needs a 64-bit target.
Statements that depend on the width of `unsigned long` are given for `ulongBits = 64`,
with the 32-bit behaviour recorded next to them.
-/

namespace SearchC

/-! ## Machine arithmetic -/

/-- Value stored when an arithmetic result is assigned to a `uint32_t` object. -/
def toU32 (x : Nat) : Nat := x % 2 ^ 32

/-- Addition in `unsigned long` (`a + b` with an operand of that type). -/
def ulAdd (ulongBits a b : Nat) : Nat := (a + b) % 2 ^ ulongBits

/-- Subtraction in `unsigned long` (`a - b` with an operand of that type), wrapping. -/
def ulSub (ulongBits a b : Nat) : Nat := (a + 2 ^ ulongBits - b % 2 ^ ulongBits) % 2 ^ ulongBits

/-- Constant `UINT32_MAX` of `stdint.h`. -/
def UINT32_MAX : Nat := 2 ^ 32 - 1

/-- Macro `#define BUFFER_SIZE UINT32_MAX`: number of cells of the static dataset. -/
def BUFFER_SIZE : Nat := UINT32_MAX

/-- Enumerator `NUM_INPUTS` of `positionInputs_t` (value 3). -/
def NUM_INPUTS : Nat := 3

/-- Enumerator `SEARCH_TYPE_INPUT` of `positionInputs_t`. -/
def SEARCH_TYPE_INPUT : Nat := 1

/-- Enumerator `NUMBER_ELEMENTS_INPUT` of `positionInputs_t`. -/
def NUMBER_ELEMENTS_INPUT : Nat := 2

/-! ## Memory -/

/-- Memory seen through a `uint32_t *`: cell `i` holds `some v`, or `none` when index `i`
is outside the pointed-to object. -/
abbrev Buffer := Nat → Option Nat

/-- Ways in which an execution leaves defined behaviour. -/
inductive Fault where
  /-- access to `bufferPtr[index]` outside the object -/
  | bufferIndex (index : Nat)
  /-- access to `argsPtr[index]` outside the argument vector -/
  | argIndex (index : Nat)
  deriving DecidableEq, Repr

/-- The object `static uint32_t dataset[BUFFER_SIZE]` at program start: `BUFFER_SIZE`
zero-initialised cells. -/
def dataset : Buffer := fun i => if i < BUFFER_SIZE then some 0 else none

/-- Assignment `arrayPtr[index] = value`. -/
def store (arrayPtr : Buffer) (index value : Nat) : Buffer :=
  fun i => if i = index then some value else arrayPtr i

/-! ## `writeValues` -/

/-- Loop of `writeValues`; the last argument is the number of iterations left
(`size - index`). -/
def writeValuesLoop (arrayPtr : Buffer) (index : Nat) : Nat → Except Fault Buffer
  | 0 => .ok arrayPtr
  | remaining + 1 =>
    match arrayPtr index with
    | none => .error (.bufferIndex index)
    | some _ => writeValuesLoop (store arrayPtr index index) (index + 1) remaining

/-- Function `writeValues(arrayPtr, size)`: `for (index = 0; index < size; index++)
arrayPtr[index] = index;`. -/
def writeValues (arrayPtr : Buffer) (size : Nat) : Except Fault Buffer :=
  writeValuesLoop arrayPtr 0 size

/-! ## The search algorithms -/

/-- Loop of `sequenceSearch`; the last argument is the number of iterations left
(`size - index`). -/
def sequenceSearchLoop (bufferPtr : Buffer) (key : Nat) (index : Nat) :
    Nat → Except Fault Int
  | 0 => .ok (-1)
  | remaining + 1 =>
    match bufferPtr index with
    | none => .error (.bufferIndex index)
    | some value =>
      if value = key then .ok (index : Int)
      else sequenceSearchLoop bufferPtr key (index + 1) remaining

/-- Function `sequenceSearch(bufferPtr, size, key)`. -/
def sequenceSearch (bufferPtr : Buffer) (size key : Nat) : Except Fault Int :=
  sequenceSearchLoop bufferPtr key 0 size

/-- Statement `uint32_t mid = (low + (high - 1UL)) / 2UL;`. -/
def midpoint (ulongBits low high : Nat) : Nat :=
  toU32 (ulAdd ulongBits low (ulSub ulongBits high 1) / 2)

/-- Statement `low = bufferPtr[mid] < key ? low = mid + 1UL : mid - 1UL;` for the value read
from `bufferPtr[mid]`. -/
def nextLow (ulongBits mid value key : Nat) : Nat :=
  if value < key then toU32 (ulAdd ulongBits mid 1) else toU32 (ulSub ulongBits mid 1)

/-- Loop of `binarySearch`: `high` is never assigned in the loop, the state is `low`.
One unit of fuel is used per evaluation of `low <= high`. -/
def binarySearchLoop (ulongBits : Nat) (bufferPtr : Buffer) (high key : Nat) :
    Nat → Nat → Option (Except Fault Int)
  | 0, _ => none
  | fuel + 1, low =>
    if low ≤ high then
      match bufferPtr (midpoint ulongBits low high) with
      | none => some (.error (.bufferIndex (midpoint ulongBits low high)))
      | some value =>
        if value = key then some (.ok (midpoint ulongBits low high : Int))
        else binarySearchLoop ulongBits bufferPtr high key fuel
          (nextLow ulongBits (midpoint ulongBits low high) value key)
    else some (.ok (-1))

/-- Function `binarySearch(bufferPtr, size, key)`: `low = 0UL`, `high = size - 1UL`, then the
loop. -/
def binarySearch (ulongBits fuel : Nat) (bufferPtr : Buffer) (size key : Nat) :
    Option (Except Fault Int) :=
  binarySearchLoop ulongBits bufferPtr (toU32 (ulSub ulongBits size 1)) key fuel 0

/-! ## The request table -/

/-- Enumeration `searchType_t`. -/
inductive searchType_t where
  | BINARY_SEARCH
  | SEQUENTIAL_SEARCH
  | NULL_SEARCH
  deriving DecidableEq, Repr

/-- Non-null values of `algorithmCallback_t` that occur in the program: the addresses
of the two search functions. -/
inductive algorithmCallback_t where
  | binarySearch
  | sequenceSearch
  deriving DecidableEq, Repr

/-- Structure `search_t`.  `callback` and `log` are `none` for a null pointer. -/
structure search_t where
  type : searchType_t
  callback : Option algorithmCallback_t
  key : Char
  log : Option String
  size : Nat
  deriving DecidableEq, Repr

/-- Entry `search[NULL_SEARCH]`, the last entry of the table: only `type` and `callback` have
initialisers, the other members are zero. -/
def nullSearch : search_t :=
  { type := .NULL_SEARCH, callback := none, key := Char.ofNat 0, log := none, size := 0 }

/-- Table `static const search_t search[NUM_SEARCH]`; members without an initialiser are
zero. -/
def search : List search_t :=
  [ { type := .BINARY_SEARCH, callback := some .binarySearch, key := 'b',
      log := some "Binaria", size := 0 },
    { type := .SEQUENTIAL_SEARCH, callback := some .sequenceSearch, key := 's',
      log := some "Sequencial", size := 0 },
    nullSearch ]

/-! ## Argument strings and `strtoul` -/

/-- Value of `*s` for a C string `s`: its first character, or the terminating NUL when the string
is empty. -/
def firstChar (s : String) : Char := s.toList.headD (Char.ofNat 0)

/-- Function `isspace` in the "C" locale: space, `\t`, `\n`, `\v`, `\f`, `\r`. -/
def isspace (c : Char) : Bool :=
  c.toNat = 32 || (9 ≤ c.toNat && c.toNat ≤ 13)

/-- Function `isdigit` of `ctype.h`. -/
def isdigit (c : Char) : Bool := 48 ≤ c.toNat && c.toNat ≤ 57

/-- Value of the longest prefix of decimal digits, continuing from the accumulator. -/
def digitsValue : List Char → Nat → Nat
  | [], acc => acc
  | c :: cs, acc => if isdigit c then digitsValue cs (10 * acc + (c.toNat - 48)) else acc

/-- The C library function `strtoul(nptr, NULL, 10)` (ISO C 7.22.1.4, "C" locale): skip
white space, accept one optional sign, convert the longest run of decimal digits (0 when
there is none); a magnitude that does not fit `unsigned long` gives `ULONG_MAX`, a minus
sign negates the value in `unsigned long`.  `errno` is not modelled: the program never
reads it. -/
def strtoul (ulongBits : Nat) (nptr : List Char) : Nat :=
  let subject := nptr.dropWhile isspace
  let negative : Bool := subject.head? = some '-'
  let digits :=
    if subject.head? = some '-' ∨ subject.head? = some '+' then subject.tail else subject
  let magnitude := digitsValue digits 0
  if 2 ^ ulongBits ≤ magnitude then 2 ^ ulongBits - 1
  else if negative then ulSub ulongBits 0 magnitude
  else magnitude

/-! ## `getSearchType` -/

/-- Loop of `getSearchType` over the entries of the table that are still to be compared;
`current` is the value of `*searchPtr`.  On the first entry whose `key` equals
`*argsPtr[SEARCH_TYPE_INPUT]` the entry is copied, `size` is set from `strtoul` and the
loop ends. -/
def getSearchTypeLoop (ulongBits : Nat) (argsPtr : List String) :
    List search_t → search_t → Except Fault search_t
  | [], current => .ok current
  | entry :: rest, current =>
    match argsPtr[SEARCH_TYPE_INPUT]? with
    | none => .error (.argIndex SEARCH_TYPE_INPUT)
    | some selector =>
      if entry.key = firstChar selector then
        match argsPtr[NUMBER_ELEMENTS_INPUT]? with
        | none => .error (.argIndex NUMBER_ELEMENTS_INPUT)
        | some count => .ok { entry with size := toU32 (strtoul ulongBits count.toList) }
      else getSearchTypeLoop ulongBits argsPtr rest current

/-- Function `getSearchType(parametersQuantity, argsPtr, searchPtr)`; the result is the final
value of `*searchPtr`. -/
def getSearchType (ulongBits parametersQuantity : Nat) (argsPtr : List String) :
    Except Fault search_t :=
  if parametersQuantity < NUM_INPUTS then .ok nullSearch
  else getSearchTypeLoop ulongBits argsPtr search nullSearch

/-! ## `benchmarking` and `main` -/

/-- The four `printf` calls of the program, with their arguments. -/
inductive Message where
  /-- format `"Falha tipo de busca, terminando execução!\n"` -/
  | dispatchFailure
  /-- format `"Callback nulo, terminando execução!"` -/
  | nullCallback
  /-- format `"%s - Falha na busca\n"` with `searchRequest.log` -/
  | searchFailure (log : Option String)
  /-- format `"%s - Valor encontrado = %u\n"` with `searchRequest.log`, `bufferPtr[indexFound]` -/
  | valueFound (log : Option String) (value : Nat)
  deriving DecidableEq, Repr

/-- Observable steps of a run, in order: calls through the callback and messages
printed. -/
inductive Event where
  /-- the call `(*searchRequest.callback)(bufferPtr, size, key)`, with the function called -/
  | call (callback : algorithmCallback_t) (size key : Nat)
  /-- a `printf` -/
  | print (message : Message)
  deriving DecidableEq, Repr

/-- Call through a non-null `algorithmCallback_t`. -/
def callAlgorithm (ulongBits fuel : Nat) :
    algorithmCallback_t → Buffer → Nat → Nat → Option (Except Fault Int)
  | .binarySearch, bufferPtr, size, key => binarySearch ulongBits fuel bufferPtr size key
  | .sequenceSearch, bufferPtr, size, key => some (sequenceSearch bufferPtr size key)

/-- Third argument of the callback in `benchmarking`: `searchRequest.size - 2UL`
converted to the `uint32_t` parameter `key`. -/
def benchmarkKey (ulongBits size : Nat) : Nat := toU32 (ulSub ulongBits size 2)

/-- Function `benchmarking(searchRequest, bufferPtr)`; the result is the list of its observable
steps. -/
def benchmarking (ulongBits fuel : Nat) (searchRequest : search_t) (bufferPtr : Buffer) :
    Option (Except Fault (List Event)) :=
  match searchRequest.callback with
  | none => some (.ok [.print .nullCallback])
  | some callback =>
    match callAlgorithm ulongBits fuel callback bufferPtr searchRequest.size
        (benchmarkKey ulongBits searchRequest.size) with
    | none => none
    | some (.error fault) => some (.error fault)
    | some (.ok indexFound) =>
      if indexFound = -1 then
        some (.ok [.call callback searchRequest.size (benchmarkKey ulongBits searchRequest.size),
          .print (.searchFailure searchRequest.log)])
      else
        match bufferPtr indexFound.toNat with
        | none => some (.error (.bufferIndex indexFound.toNat))
        | some value =>
          some (.ok [.call callback searchRequest.size
              (benchmarkKey ulongBits searchRequest.size),
            .print (.valueFound searchRequest.log value)])

/-- What a run of `main` leaves behind: its observable steps and the final contents of
`dataset`. -/
structure RunResult where
  trace : List Event
  dataset : Buffer

/-- Function `main(parametersQuantity, argsPtr)`. -/
def main (ulongBits fuel parametersQuantity : Nat) (argsPtr : List String) :
    Option (Except Fault RunResult) :=
  match getSearchType ulongBits parametersQuantity argsPtr with
  | .error fault => some (.error fault)
  | .ok searchRequest =>
    if searchRequest.type = .NULL_SEARCH then
      some (.ok { trace := [.print .dispatchFailure], dataset := dataset })
    else
      match writeValues dataset searchRequest.size with
      | .error fault => some (.error fault)
      | .ok written =>
        match benchmarking ulongBits fuel searchRequest written with
        | none => none
        | some (.error fault) => some (.error fault)
        | some (.ok trace) => some (.ok { trace := trace, dataset := written })

/-! ## Reference notions used in the statements -/

/-- Contents of `dataset` once its first `n` cells hold `0 .. n-1`: cell `i` holds `i`
below `n`, the remaining cells of the array are still zero. -/
def filled (n : Nat) : Buffer :=
  fun i => if i < n then some i else if i < BUFFER_SIZE then some 0 else none

/-- A three-cell buffer holding `7, 5, 5`, used to instantiate statements. -/
def sampleBuffer : Buffer := fun i => [7, 5, 5][i]?

/-- Base-10 value of a string of decimal digits. -/
def decimalValue (digits : List Char) : Nat :=
  digits.foldl (fun acc c => 10 * acc + (c.toNat - 48)) 0

/-- Part of a count argument at which `strtoul` looks for digits: what follows the
leading white space and one optional sign. -/
def digitsStart (nptr : List Char) : List Char :=
  if (nptr.dropWhile isspace).head? = some '-' ∨ (nptr.dropWhile isspace).head? = some '+'
  then (nptr.dropWhile isspace).tail else nptr.dropWhile isspace

/-- A three-cell buffer holding `1, 3, 5` in ascending order, used to instantiate
statements. -/
def ascendingSample : Buffer := fun i => [1, 3, 5][i]?

/-! ## Instrumented forms of the search loops

The same loops as above with one more output each: the indices read from the buffer, or
the memory the function leaves behind. -/

/-- Indices `mid` at which the loop of `binarySearch` reads `bufferPtr[mid]`, in order,
during the first `fuel` evaluations of the loop condition. -/
def binarySearchProbes (ulongBits : Nat) (bufferPtr : Buffer) (high key : Nat) :
    Nat → Nat → List Nat
  | 0, _ => []
  | fuel + 1, low =>
    if low ≤ high then
      match bufferPtr (midpoint ulongBits low high) with
      | none => [midpoint ulongBits low high]
      | some value =>
        if value = key then [midpoint ulongBits low high]
        else midpoint ulongBits low high ::
          binarySearchProbes ulongBits bufferPtr high key fuel
            (nextLow ulongBits (midpoint ulongBits low high) value key)
    else []

/-- Loop of `sequenceSearch` with the memory passed through every iteration: the body
reads `bufferPtr[index]` and contains no assignment through `bufferPtr`.  The result is
the value returned and the memory at that point. -/
def sequenceSearchStateLoop (key : Nat) (index : Nat) :
    Nat → Buffer → Except Fault Int × Buffer
  | 0, memory => (.ok (-1), memory)
  | remaining + 1, memory =>
    match memory index with
    | none => (.error (.bufferIndex index), memory)
    | some value =>
      if value = key then (.ok (index : Int), memory)
      else sequenceSearchStateLoop key (index + 1) remaining memory

/-- Function `sequenceSearch` as a state transformer on the memory behind `bufferPtr`. -/
def sequenceSearchState (memory : Buffer) (size key : Nat) : Except Fault Int × Buffer :=
  sequenceSearchStateLoop key 0 size memory

/-- Loop of `binarySearch` with the memory passed through every iteration: the body reads
`bufferPtr[mid]` and assigns only the local `low`. -/
def binarySearchStateLoop (ulongBits : Nat) (high key : Nat) :
    Nat → Nat → Buffer → Option (Except Fault Int × Buffer)
  | 0, _, _ => none
  | fuel + 1, low, memory =>
    if low ≤ high then
      match memory (midpoint ulongBits low high) with
      | none => some (.error (.bufferIndex (midpoint ulongBits low high)), memory)
      | some value =>
        if value = key then some (.ok (midpoint ulongBits low high : Int), memory)
        else binarySearchStateLoop ulongBits high key fuel
          (nextLow ulongBits (midpoint ulongBits low high) value key) memory
    else some (.ok (-1), memory)

/-- Function `binarySearch` as a state transformer on the memory behind `bufferPtr`. -/
def binarySearchState (ulongBits fuel : Nat) (memory : Buffer) (size key : Nat) :
    Option (Except Fault Int × Buffer) :=
  binarySearchStateLoop ulongBits (toU32 (ulSub ulongBits size 1)) key fuel 0 memory

end SearchC

/-! Paged file printer (`LeonardoMudrek_Tarefa01_more.c`): embedding of `readFile`.

What `fopen` gives access to is a list of characters together with what a read meets once
they are used up: the end of the file, or a read error (as when the name is that of a
directory).  An open file is the list of characters not yet consumed with its end-of-file
and error indicators.  `fgets` and `feof` are the C library functions (ISO C 7.21.7.2 and
7.21.10.2).  A read error sets the error indicator and leaves the end-of-file indicator
alone, so the loop of `readFile`, which tests `feof` only, need not end: the loop takes a
fuel argument that bounds the number of evaluations of its condition, and it yields the
observable steps made within that bound together with whether it has ended.
-/

namespace MoreC

/-- Macro `#define FILE_BUFFER_SIZE 256`. -/
def FILE_BUFFER_SIZE : Nat := 256

/-- Macro `#define LINE_COUNT_MAX 20`. -/
def LINE_COUNT_MAX : Nat := 20

/-- The new-line character. -/
def newline : Char := Char.ofNat 10

/-- What a read meets once every character of the file has been consumed. -/
inductive Ending where
  /-- the end of the file -/
  | endOfFile
  /-- a read error, at this and at every later attempt -/
  | readError
  deriving DecidableEq, Repr

/-- What a successful `fopen(fileName, "r")` gives access to. -/
structure Contents where
  characters : List Char
  ending : Ending
  deriving DecidableEq, Repr

/-- State of a `FILE *` opened with mode `"r"`. -/
structure FileState where
  /-- characters of the file that have not been read yet -/
  unread : List Char
  /-- what a read meets after the last character -/
  ending : Ending
  /-- end-of-file indicator, tested by `feof` -/
  eof : Bool
  /-- error indicator, tested by `ferror` -/
  error : Bool
  deriving DecidableEq, Repr

/-- Result of the character loop of `fgets`: the characters stored in the array, the
characters left in the file, and whether the loop ran past the last character. -/
structure Scan where
  stored : List Char
  rest : List Char
  metEnd : Bool
  deriving DecidableEq, Repr

/-- Character loop of `fgets` with room for `room` characters: characters are stored until
the room is used up, a new-line has been stored, or no character is left. -/
def fgetsScan : Nat → List Char → Scan
  | 0, unread => { stored := [], rest := unread, metEnd := false }
  | _ + 1, [] => { stored := [], rest := [], metEnd := true }
  | room + 1, c :: unread =>
    if c = newline then { stored := [c], rest := unread, metEnd := false }
    else
      { stored := c :: (fgetsScan room unread).stored,
        rest := (fgetsScan room unread).rest,
        metEnd := (fgetsScan room unread).metEnd }

/-- Effect of `fgets(line, size, filePtr)` on the array `line` and on the file. -/
structure FgetsResult where
  /-- characters read by this call -/
  stored : List Char
  /-- whether the call returns a null pointer -/
  null : Bool
  /-- contents of `line` after the call; `none` is an array with indeterminate contents -/
  line : Option (List Char)
  file : FileState
  deriving DecidableEq, Repr

/-- The C library function `fgets(line, size, filePtr)`: at most `size - 1` characters are
read.  When the end of the file is met the end-of-file indicator is set, and if no
character was read the array is left as it was and the call returns a null pointer.  When
a read error is met the error indicator is set, the contents of the array become
indeterminate and the call returns a null pointer; the end-of-file indicator is not
touched. -/
def fgets (line : Option (List Char)) (size : Nat) (file : FileState) : FgetsResult :=
  { stored := (fgetsScan (size - 1) file.unread).stored,
    null :=
      ((fgetsScan (size - 1) file.unread).metEnd && decide (file.ending = .readError)) ||
        decide ((fgetsScan (size - 1) file.unread).stored = []),
    line :=
      if (fgetsScan (size - 1) file.unread).metEnd = true ∧ file.ending = .readError then none
      else if (fgetsScan (size - 1) file.unread).stored = [] then line
      else some (fgetsScan (size - 1) file.unread).stored,
    file :=
      { unread := (fgetsScan (size - 1) file.unread).rest,
        ending := file.ending,
        eof := file.eof ||
          ((fgetsScan (size - 1) file.unread).metEnd && decide (file.ending = .endOfFile)),
        error := file.error ||
          ((fgetsScan (size - 1) file.unread).metEnd && decide (file.ending = .readError)) } }

/-- Observable steps of `readFile`. -/
inductive Event where
  /-- call of `waitForEnter()` -/
  | pause
  /-- call of `fgets`, with the characters it read -/
  | read (stored : List Char)
  /-- call `printf("%s", line)`, with the contents of `line` -/
  | print (line : Option (List Char))
  /-- assignment of a value to the local `count` -/
  | count (value : Nat)
  deriving DecidableEq, Repr

/-- What the loop of `readFile` has done within its fuel: the observable steps so far, and
whether the loop has ended (`feof` was found true). -/
structure Progress where
  trace : List Event
  finished : Bool
  deriving DecidableEq, Repr

/-- Loop `while (feof(filePtr) == false)` of `readFile`, from the state made of the file,
the array `line` and the counter `count`; the result of `fgets` is not looked at. -/
def readFileLoop : Nat → FileState → Option (List Char) → Nat → Progress
  | 0, _, _, _ => { trace := [], finished := false }
  | fuel + 1, file, line, count =>
    if file.eof = false then
      if count = LINE_COUNT_MAX then
        { trace :=
            Event.pause :: Event.count 0 ::
              Event.read (fgets line FILE_BUFFER_SIZE file).stored ::
              Event.print (fgets line FILE_BUFFER_SIZE file).line :: Event.count (0 + 1) ::
              (readFileLoop fuel (fgets line FILE_BUFFER_SIZE file).file
                (fgets line FILE_BUFFER_SIZE file).line (0 + 1)).trace,
          finished :=
            (readFileLoop fuel (fgets line FILE_BUFFER_SIZE file).file
              (fgets line FILE_BUFFER_SIZE file).line (0 + 1)).finished }
      else
        { trace :=
            Event.read (fgets line FILE_BUFFER_SIZE file).stored ::
              Event.print (fgets line FILE_BUFFER_SIZE file).line :: Event.count (count + 1) ::
              (readFileLoop fuel (fgets line FILE_BUFFER_SIZE file).file
                (fgets line FILE_BUFFER_SIZE file).line (count + 1)).trace,
          finished :=
            (readFileLoop fuel (fgets line FILE_BUFFER_SIZE file).file
              (fgets line FILE_BUFFER_SIZE file).line (count + 1)).finished }
    else { trace := [], finished := true }

/-- A run of `readFile` within its fuel: the observable steps so far and the value
returned, `none` while the loop is still running. -/
structure Run where
  trace : List Event
  returned : Option Bool
  deriving DecidableEq, Repr

/-- Function `readFile(fileName)`, for what `fopen` yields on the named file (`none` when
it fails). -/
def readFile (fuel : Nat) (opened : Option Contents) : Run :=
  match opened with
  | none => { trace := [], returned := some false }
  | some contents =>
    { trace := Event.count 0 ::
        (readFileLoop fuel
          { unread := contents.characters, ending := contents.ending, eof := false,
            error := false } none 0).trace,
      returned :=
        if (readFileLoop fuel
          { unread := contents.characters, ending := contents.ending, eof := false,
            error := false } none 0).finished = true then some true else none }

/-! ## Reference notions used in the statements -/

/-- Check of a trace of the loop against the pacing rule, where `sinceLast` is the number
of reads made since the last pause: a pause comes exactly when 20 reads have been made and
another read follows, the counter is set to 0 by the pause and to `sinceLast + 1` by a
read, and a read stores at most 255 characters. -/
def wellPaced : Nat → List Event → Bool
  | _, [] => true
  | sinceLast, Event.pause :: Event.count value :: later =>
    decide (sinceLast = 20) && decide (value = 0) && wellPaced 0 later
  | sinceLast, Event.read stored :: Event.print _ :: Event.count value :: later =>
    decide (sinceLast < 20) && decide (value = sinceLast + 1) &&
      decide (stored.length ≤ 255) && wellPaced value later
  | _, _ => false

/-- Number of calls of `fgets` in a trace. -/
def readCount : List Event → Nat
  | [] => 0
  | Event.read _ :: later => readCount later + 1
  | _ :: later => readCount later

/-- Number of calls of `waitForEnter` in a trace. -/
def pauseCount : List Event → Nat
  | [] => 0
  | Event.pause :: later => pauseCount later + 1
  | _ :: later => pauseCount later

/-- Largest value assigned to `count` in a trace. -/
def maxCount : List Event → Nat
  | [] => 0
  | Event.count value :: later => max value (maxCount later)
  | _ :: later => maxCount later

/-- A text of `k` lines, each made of the letter `a` and a new-line. -/
def sampleLines : Nat → List Char
  | 0 => []
  | k + 1 => 'a' :: newline :: sampleLines k

end MoreC

namespace SearchC

/-! ## Arithmetic lemmas -/

theorem two_pow_ulongBits (ulongBits : Nat) (hbits : 32 ≤ ulongBits) :
    ∃ k, 0 < k ∧ 2 ^ ulongBits = 4294967296 * k := by
  refine ⟨2 ^ (ulongBits - 32), Nat.two_pow_pos _, ?_⟩
  have h : ulongBits = 32 + (ulongBits - 32) := by omega
  conv_lhs => rw [h, pow_add]
  norm_num

theorem toU32_of_lt {x : Nat} (h : x < 4294967296) : toU32 x = x := by
  unfold toU32
  omega

theorem toU32_le (x : Nat) : toU32 x ≤ x := Nat.mod_le _ _

theorem ulSub_of_le (ulongBits a b : Nat) (hbits : 32 ≤ ulongBits) (hba : b ≤ a)
    (ha : a < 4294967296) : ulSub ulongBits a b = a - b := by
  obtain ⟨k, hk, hW⟩ := two_pow_ulongBits ulongBits hbits
  have hlt : a < 2 ^ ulongBits := by rw [hW]; omega
  have hb : b % 2 ^ ulongBits = b := Nat.mod_eq_of_lt (by omega)
  have e : a + 2 ^ ulongBits - b = (a - b) + 2 ^ ulongBits := by omega
  unfold ulSub
  rw [hb, e, Nat.add_mod_right]
  exact Nat.mod_eq_of_lt (by omega)

theorem toU32_ulSub_wrap (ulongBits a b : Nat) (hbits : 32 ≤ ulongBits) (hab : a < b)
    (hb : b < 4294967296) : toU32 (ulSub ulongBits a b) = 4294967296 + a - b := by
  obtain ⟨k, hk, hW⟩ := two_pow_ulongBits ulongBits hbits
  have hlt : b < 2 ^ ulongBits := by rw [hW]; omega
  have hb : b % 2 ^ ulongBits = b := Nat.mod_eq_of_lt hlt
  have h2 : (a + 2 ^ ulongBits - b) % 2 ^ ulongBits = a + 2 ^ ulongBits - b :=
    Nat.mod_eq_of_lt (by omega)
  unfold ulSub toU32
  rw [hb, h2, hW]
  omega

theorem high_of_pos (ulongBits n : Nat) (hbits : 32 ≤ ulongBits) (hn : 1 ≤ n)
    (hmax : n < 4294967296) : toU32 (ulSub ulongBits n 1) = n - 1 := by
  rw [ulSub_of_le ulongBits n 1 hbits hn hmax, toU32_of_lt (by omega)]

theorem midpoint_le (ulongBits low high : Nat) (hbits : 32 ≤ ulongBits) (hlow : low ≤ high)
    (hpos : 1 ≤ high) (hhigh : high < 4294967296) :
    midpoint ulongBits low high ≤ high - 1 := by
  unfold midpoint
  rw [ulSub_of_le ulongBits high 1 hbits hpos hhigh]
  have h1 : ulAdd ulongBits low (high - 1) ≤ low + (high - 1) := Nat.mod_le _ _
  have h2 := toU32_le (ulAdd ulongBits low (high - 1) / 2)
  omega

theorem midpoint_eq (ulongBits low high : Nat) (hbits : 32 ≤ ulongBits) (hlow : low ≤ high)
    (hpos : 1 ≤ high) (hhigh : high < 4294967296) (hsum : low + (high - 1) < 2 ^ ulongBits) :
    midpoint ulongBits low high = (low + (high - 1)) / 2 := by
  unfold midpoint
  rw [ulSub_of_le ulongBits high 1 hbits hpos hhigh]
  unfold ulAdd
  rw [Nat.mod_eq_of_lt hsum, toU32_of_lt (by omega)]

theorem nextLow_of_lt (ulongBits mid value key : Nat) (hbits : 32 ≤ ulongBits)
    (hv : value < key) (hmid : mid + 1 < 4294967296) :
    nextLow ulongBits mid value key = mid + 1 := by
  obtain ⟨k, hk, hW⟩ := two_pow_ulongBits ulongBits hbits
  unfold nextLow ulAdd
  rw [if_pos hv, Nat.mod_eq_of_lt (by rw [hW]; omega), toU32_of_lt hmid]

/-! ## `writeValues` on the static dataset -/

theorem writeValuesLoop_ok (remaining : Nat) :
    ∀ (arrayPtr : Buffer) (index : Nat),
      (∀ i, index ≤ i → i < index + remaining → (arrayPtr i).isSome = true) →
      writeValuesLoop arrayPtr index remaining =
        .ok (fun i => if index ≤ i ∧ i < index + remaining then some i else arrayPtr i) := by
  induction remaining with
  | zero =>
    intro arrayPtr index _
    simp only [writeValuesLoop]
    congr 1
    funext i
    rw [if_neg (by omega)]
  | succ r ih =>
    intro arrayPtr index hread
    have h0 := hread index (le_refl _) (by omega)
    obtain ⟨v, hv⟩ := Option.isSome_iff_exists.mp h0
    simp only [writeValuesLoop, hv]
    rw [ih (store arrayPtr index index) (index + 1)]
    · congr 1
      funext i
      unfold store
      by_cases h1 : index + 1 ≤ i ∧ i < index + 1 + r
      · rw [if_pos h1, if_pos (by omega)]
      · rw [if_neg h1]
        by_cases h2 : i = index
        · rw [if_pos h2, if_pos (by omega), h2]
        · rw [if_neg h2, if_neg (by omega)]
    · intro i hi1 hi2
      unfold store
      rw [if_neg (by omega)]
      exact hread i (by omega) (by omega)

theorem writeValues_dataset (n : Nat) (hmax : n ≤ UINT32_MAX) :
    writeValues dataset n = .ok (filled n) := by
  unfold writeValues
  rw [writeValuesLoop_ok]
  · congr 1
    funext i
    unfold filled dataset
    by_cases h : i < n
    · rw [if_pos (by omega), if_pos h]
    · rw [if_neg (by omega), if_neg h]
  · intro i _ hi
    unfold dataset BUFFER_SIZE
    rw [if_pos (by omega)]
    rfl

theorem filled_of_lt (n i : Nat) (h : i < n) : filled n i = some i := by
  unfold filled
  rw [if_pos h]

/-! ## `sequenceSearch` -/

theorem sequenceSearchLoop_found (bufferPtr : Buffer) (key m : Nat)
    (hm : bufferPtr m = some key) :
    ∀ (remaining index : Nat), index ≤ m → m < index + remaining →
      (∀ i, index ≤ i → i < m → ∃ v, bufferPtr i = some v ∧ v ≠ key) →
      sequenceSearchLoop bufferPtr key index remaining = .ok (m : Int) := by
  intro remaining
  induction remaining with
  | zero => intro index h1 h2 _; omega
  | succ r ih =>
    intro index h1 h2 hbefore
    by_cases hidx : index = m
    · subst hidx
      simp [sequenceSearchLoop, hm]
    · obtain ⟨v, hv, hne⟩ := hbefore index (le_refl _) (by omega)
      simp only [sequenceSearchLoop, hv, if_neg hne]
      exact ih (index + 1) (by omega) (by omega) (fun i hi1 hi2 => hbefore i (by omega) hi2)

theorem sequenceSearchLoop_absent (bufferPtr : Buffer) (key : Nat) :
    ∀ (remaining index : Nat),
      (∀ i, index ≤ i → i < index + remaining → ∃ v, bufferPtr i = some v ∧ v ≠ key) →
      sequenceSearchLoop bufferPtr key index remaining = .ok (-1) := by
  intro remaining
  induction remaining with
  | zero => intro index _; rfl
  | succ r ih =>
    intro index hall
    obtain ⟨v, hv, hne⟩ := hall index (le_refl _) (by omega)
    simp only [sequenceSearchLoop, hv, if_neg hne]
    exact ih (index + 1) (fun i hi1 hi2 => hall i (by omega) (by omega))

theorem sequenceSearch_filled_found (n size k : Nat) (hk : k < size) (hsize : size ≤ n) :
    sequenceSearch (filled n) size k = .ok (k : Int) := by
  unfold sequenceSearch
  apply sequenceSearchLoop_found (filled n) k k (filled_of_lt n k (by omega)) size 0
    (Nat.zero_le _) (by omega)
  intro i _ hi
  exact ⟨i, filled_of_lt n i (by omega), by omega⟩

theorem sequenceSearch_filled_absent (n k : Nat) (hk : n ≤ k) :
    sequenceSearch (filled n) n k = .ok (-1) := by
  unfold sequenceSearch
  apply sequenceSearchLoop_absent
  intro i _ hi
  exact ⟨i, filled_of_lt n i (by omega), by omega⟩

/-! ## `binarySearch` -/

/-- More fuel does not change a result that has been produced: the result of
`binarySearch` is well defined. -/
theorem binarySearchLoop_mono (ulongBits : Nat) (bufferPtr : Buffer) (high key : Nat)
    (result : Except Fault Int) :
    ∀ (fuel extra low : Nat),
      binarySearchLoop ulongBits bufferPtr high key fuel low = some result →
      binarySearchLoop ulongBits bufferPtr high key (fuel + extra) low = some result := by
  intro fuel
  induction fuel with
  | zero => intro extra low h; simp [binarySearchLoop] at h
  | succ f ih =>
    intro extra low h
    rw [show f + 1 + extra = (f + extra) + 1 by omega]
    simp only [binarySearchLoop] at h ⊢
    split
    · rename_i hle
      rw [if_pos hle] at h
      split
      · rename_i hnone
        rw [hnone] at h
        exact h
      · rename_i value hsome
        rw [hsome] at h
        simp only at h
        split
        · rename_i heq
          rw [if_pos heq] at h
          exact h
        · rename_i hne
          rw [if_neg hne] at h
          exact ih extra _ h
    · rename_i hle
      rw [if_neg hle] at h
      exact h

/-- When every cell below `high` holds a value smaller than the key, the loop keeps
`low ≤ high` for ever: each probe is below `high` and moves `low` to `mid + 1 ≤ high`. -/
theorem binarySearchLoop_stuck (ulongBits : Nat) (bufferPtr : Buffer) (high key : Nat)
    (hbits : 32 ≤ ulongBits) (hpos : 1 ≤ high) (hhigh : high < 4294967296)
    (hbuf : ∀ i, i < high → ∃ v, bufferPtr i = some v ∧ v < key) :
    ∀ (fuel low : Nat), low ≤ high →
      binarySearchLoop ulongBits bufferPtr high key fuel low = none := by
  intro fuel
  induction fuel with
  | zero => intro low _; rfl
  | succ f ih =>
    intro low hlow
    have hmid := midpoint_le ulongBits low high hbits hlow hpos hhigh
    obtain ⟨v, hv, hlt⟩ := hbuf (midpoint ulongBits low high) (by omega)
    have hne : v ≠ key := by omega
    simp only [binarySearchLoop, if_pos hlow, hv, if_neg hne]
    rw [nextLow_of_lt ulongBits _ v key hbits hlt (by omega)]
    exact ih _ (by omega)

/-- With key `n - 2` on a buffer holding `i` at every index `i < n`, the loop started at
any `low ≤ n - 2` reaches a probe at `n - 2`, provided the midpoint sum does not wrap. -/
theorem binarySearchLoop_finds_key (ulongBits n : Nat) (bufferPtr : Buffer)
    (hbits : 32 ≤ ulongBits) (hn : 2 ≤ n) (hmax : n < 4294967296)
    (hsum : 2 * n ≤ 2 ^ ulongBits) (hbuf : ∀ i, i < n → bufferPtr i = some i) :
    ∀ (d low : Nat), n - 2 - low ≤ d → low ≤ n - 2 →
      ∃ fuel, binarySearchLoop ulongBits bufferPtr (n - 1) (n - 2) fuel low
        = some (.ok ((n - 2 : Nat) : Int)) := by
  intro d
  induction d with
  | zero =>
    intro low hd hlow
    have hlow2 : low = n - 2 := by omega
    have hmid : midpoint ulongBits low (n - 1) = n - 2 := by
      rw [midpoint_eq ulongBits low (n - 1) hbits (by omega) (by omega) (by omega) (by omega)]
      omega
    refine ⟨1, ?_⟩
    simp [binarySearchLoop, show low ≤ n - 1 by omega, hmid, hbuf (n - 2) (by omega)]
  | succ d ih =>
    intro low hd hlow
    have hmid : midpoint ulongBits low (n - 1) = (low + (n - 1 - 1)) / 2 :=
      midpoint_eq ulongBits low (n - 1) hbits (by omega) (by omega) (by omega) (by omega)
    by_cases hfound : (low + (n - 1 - 1)) / 2 = n - 2
    · refine ⟨1, ?_⟩
      simp [binarySearchLoop, show low ≤ n - 1 by omega, hmid, hfound, hbuf (n - 2) (by omega)]
    · have hlt : (low + (n - 1 - 1)) / 2 < n - 2 := by omega
      obtain ⟨fuel, hfuel⟩ := ih ((low + (n - 1 - 1)) / 2 + 1) (by omega) (by omega)
      refine ⟨fuel + 1, ?_⟩
      simp only [binarySearchLoop, if_pos (show low ≤ n - 1 by omega), hmid,
        hbuf ((low + (n - 1 - 1)) / 2) (by omega), if_neg hfound]
      rw [nextLow_of_lt ulongBits _ _ _ hbits hlt (by omega)]
      exact hfuel

/-! ## `strtoul` and `getSearchType` -/

theorem digitsValue_of_digits (digits : List Char) :
    ∀ acc, (∀ c, c ∈ digits → isdigit c = true) →
      digitsValue digits acc = digits.foldl (fun a c => 10 * a + (c.toNat - 48)) acc := by
  induction digits with
  | nil => intro acc _; rfl
  | cons c cs ih =>
    intro acc hall
    have hc : isdigit c = true := hall c (List.mem_cons_self _ _)
    simp only [digitsValue, hc, if_true, List.foldl_cons]
    exact ih _ (fun d hd => hall d (List.mem_cons_of_mem _ hd))

theorem not_isspace_of_isdigit (c : Char) (h : isdigit c = true) : isspace c = false := by
  unfold isdigit at h
  unfold isspace
  simp only [Bool.and_eq_true, decide_eq_true_eq] at h
  simp only [Bool.or_eq_false_iff, Bool.and_eq_false_iff, decide_eq_false_iff_not]
  omega

theorem ne_sign_of_isdigit (c : Char) (h : isdigit c = true) : c ≠ '-' ∧ c ≠ '+' := by
  constructor <;>
  · intro hc
    rw [hc] at h
    exact absurd h (by decide)

/-- On a string of decimal digits whose value fits `unsigned long`, `strtoul` returns the
base-10 value. -/
theorem strtoul_of_digits (ulongBits : Nat) (digits : List Char)
    (hall : ∀ c, c ∈ digits → isdigit c = true)
    (hfit : decimalValue digits < 2 ^ ulongBits) :
    strtoul ulongBits digits = decimalValue digits := by
  have hdrop : digits.dropWhile isspace = digits := by
    cases digits with
    | nil => rfl
    | cons c cs =>
      simp [List.dropWhile, not_isspace_of_isdigit c (hall c (List.mem_cons_self _ _))]
  have hhead : ¬ (digits.head? = some '-' ∨ digits.head? = some '+') := by
    cases digits with
    | nil => simp
    | cons c cs =>
      have hne := ne_sign_of_isdigit c (hall c (List.mem_cons_self _ _))
      simp [hne.1, hne.2]
  have hminus : ¬ digits.head? = some '-' := fun h => hhead (Or.inl h)
  have hplus : ¬ digits.head? = some '+' := fun h => hhead (Or.inr h)
  have hvalue : digitsValue digits 0 = decimalValue digits :=
    digitsValue_of_digits digits 0 hall
  unfold strtoul
  simp [hdrop, hminus, hplus, hvalue, Nat.not_le.mpr hfit]

theorem getSearchType_binary (ulongBits parametersQuantity : Nat) (name selector count : String)
    (rest : List String) (hq : 3 ≤ parametersQuantity) (hsel : firstChar selector = 'b') :
    getSearchType ulongBits parametersQuantity (name :: selector :: count :: rest) =
      .ok { type := .BINARY_SEARCH, callback := some .binarySearch, key := 'b',
            log := some "Binaria", size := toU32 (strtoul ulongBits count.toList) } := by
  unfold getSearchType NUM_INPUTS
  rw [if_neg (by omega)]
  simp [search, getSearchTypeLoop, SEARCH_TYPE_INPUT, NUMBER_ELEMENTS_INPUT, hsel]

theorem getSearchType_sequential (ulongBits parametersQuantity : Nat)
    (name selector count : String) (rest : List String) (hq : 3 ≤ parametersQuantity)
    (hsel : firstChar selector = 's') :
    getSearchType ulongBits parametersQuantity (name :: selector :: count :: rest) =
      .ok { type := .SEQUENTIAL_SEARCH, callback := some .sequenceSearch, key := 's',
            log := some "Sequencial", size := toU32 (strtoul ulongBits count.toList) } := by
  unfold getSearchType NUM_INPUTS
  rw [if_neg (by omega)]
  simp [search, getSearchTypeLoop, SEARCH_TYPE_INPUT, NUMBER_ELEMENTS_INPUT, hsel]

/-! ## Whole runs: auxiliary facts -/

theorem main_of_request (ulongBits fuel parametersQuantity : Nat) (argsPtr : List String)
    (request : search_t)
    (hreq : getSearchType ulongBits parametersQuantity argsPtr = .ok request)
    (htype : request.type ≠ .NULL_SEARCH) (hsize : request.size ≤ UINT32_MAX) :
    main ulongBits fuel parametersQuantity argsPtr =
      match benchmarking ulongBits fuel request (filled request.size) with
      | none => none
      | some (.error fault) => some (.error fault)
      | some (.ok trace) => some (.ok { trace := trace, dataset := filled request.size }) := by
  unfold main
  simp only [hreq, if_neg htype, writeValues_dataset request.size hsize]

/-- C1 fails on the code at the last key.  For every size `n ≥ 2`, on the dataset filled
by `writeValues` with `0 .. n-1`, `sequenceSearch` returns index `n - 1` for key `n - 1`,
while `binarySearch` with the same arguments produces no result whatever the fuel: it
never returns, so the two do not return the same index. -/
theorem binarySearch_last_key_never_returns (ulongBits n : Nat) (hbits : 32 ≤ ulongBits)
    (hn : 2 ≤ n) (hmax : n ≤ UINT32_MAX) :
    ∃ buffer, writeValues dataset n = .ok buffer ∧
      sequenceSearch buffer n (n - 1) = .ok ((n - 1 : Nat) : Int) ∧
      ∀ fuel, binarySearch ulongBits fuel buffer n (n - 1) = none := by
  unfold UINT32_MAX at hmax
  refine ⟨filled n, writeValues_dataset n hmax, ?_, ?_⟩
  · exact sequenceSearch_filled_found n n (n - 1) (by omega) (le_refl _)
  · intro fuel
    unfold binarySearch
    rw [high_of_pos ulongBits n hbits (by omega) (by omega)]
    apply binarySearchLoop_stuck ulongBits (filled n) (n - 1) (n - 1) hbits (by omega) (by omega)
    · intro i hi
      exact ⟨i, filled_of_lt n i (by omega), hi⟩
    · omega

/-- Instance of the C1 statement: size 2, key 1, 64-bit
`unsigned long`. -/
theorem binarySearch_last_key_never_returns_witness :
    ∃ buffer, writeValues dataset 2 = .ok buffer ∧
      sequenceSearch buffer 2 (2 - 1) = .ok ((2 - 1 : Nat) : Int) ∧
      ∀ fuel, binarySearch 64 fuel buffer 2 (2 - 1) = none :=
  binarySearch_last_key_never_returns 64 2 (by decide) (by decide) (by decide)

/-- C2: for every size `n ≥ 2`, after `writeValues` has filled the dataset with
`0 .. n-1`, `sequenceSearch` and `binarySearch` called with size `n` and key `n - 2` both
return index `n - 2`.  The hypothesis `2 * n ≤ 2 ^ ulongBits` says that the midpoint sum
`low + (high - 1UL)` does not wrap; it holds for every `uint32_t` size as soon as
`unsigned long` has more than 32 bits. -/
theorem search_key_size_minus_two (ulongBits n : Nat) (hbits : 32 ≤ ulongBits)
    (hn : 2 ≤ n) (hmax : n ≤ UINT32_MAX) (hsum : 2 * n ≤ 2 ^ ulongBits) :
    ∃ buffer, writeValues dataset n = .ok buffer ∧
      sequenceSearch buffer n (n - 2) = .ok ((n - 2 : Nat) : Int) ∧
      ∃ fuel, binarySearch ulongBits fuel buffer n (n - 2) = some (.ok ((n - 2 : Nat) : Int)) := by
  unfold UINT32_MAX at hmax
  refine ⟨filled n, writeValues_dataset n hmax, ?_, ?_⟩
  · exact sequenceSearch_filled_found n n (n - 2) (by omega) (le_refl _)
  · unfold binarySearch
    rw [high_of_pos ulongBits n hbits (by omega) (by omega)]
    exact binarySearchLoop_finds_key ulongBits n (filled n) hbits hn (by omega) hsum
      (fun i hi => filled_of_lt n i hi) (n - 2) 0 (by omega) (Nat.zero_le _)

/-- Instance of the C2 statement: size 10, key 8, 64-bit `unsigned long`. -/
theorem search_key_size_minus_two_witness :
    ∃ buffer, writeValues dataset 10 = .ok buffer ∧
      sequenceSearch buffer 10 (10 - 2) = .ok ((10 - 2 : Nat) : Int) ∧
      ∃ fuel, binarySearch 64 fuel buffer 10 (10 - 2) = some (.ok ((10 - 2 : Nat) : Int)) :=
  search_key_size_minus_two 64 10 (by decide) (by decide) (by decide) (by decide)

/-- C3 fails on the code for `binarySearch`.  For every size `n ≥ 2` and every key
`key ≥ n` (a key outside `[0, n-1]`), on the dataset filled with `0 .. n-1`,
`sequenceSearch` returns `-1`, while `binarySearch` produces no result whatever the fuel:
it never returns, in particular it does not return `-1`. -/
theorem binarySearch_absent_key_never_returns (ulongBits n key : Nat)
    (hbits : 32 ≤ ulongBits) (hn : 2 ≤ n) (hkey : n ≤ key) (hmax : key ≤ UINT32_MAX) :
    ∃ buffer, writeValues dataset n = .ok buffer ∧
      sequenceSearch buffer n key = .ok (-1) ∧
      ∀ fuel, binarySearch ulongBits fuel buffer n key = none := by
  unfold UINT32_MAX at hmax
  refine ⟨filled n, writeValues_dataset n (by unfold UINT32_MAX; omega), ?_, ?_⟩
  · exact sequenceSearch_filled_absent n key hkey
  · intro fuel
    unfold binarySearch
    rw [high_of_pos ulongBits n hbits (by omega) (by omega)]
    apply binarySearchLoop_stuck ulongBits (filled n) (n - 1) key hbits (by omega) (by omega)
    · intro i hi
      exact ⟨i, filled_of_lt n i (by omega), by omega⟩
    · omega

/-- Instance of the C3 statement: size 2, key 2, 64-bit
`unsigned long`. -/
theorem binarySearch_absent_key_never_returns_witness :
    ∃ buffer, writeValues dataset 2 = .ok buffer ∧
      sequenceSearch buffer 2 2 = .ok (-1) ∧
      ∀ fuel, binarySearch 64 fuel buffer 2 2 = none :=
  binarySearch_absent_key_never_returns 64 2 2 (by decide) (by decide) (by decide) (by decide)

/-- On the empty dataset (size 0) `binarySearch` starts with `high = UINT32_MAX`, probes
cell `2147483647` of the static array, which still holds its initial 0, and returns that
index for key 0 instead of `-1`. -/
theorem binarySearch_size_zero_key_zero (ulongBits fuel : Nat) (hbits : 32 ≤ ulongBits) :
    ∃ buffer, writeValues dataset 0 = .ok buffer ∧
      sequenceSearch buffer 0 0 = .ok (-1) ∧
      binarySearch ulongBits (fuel + 1) buffer 0 0 = some (.ok 2147483647) := by
  refine ⟨filled 0, writeValues_dataset 0 (Nat.zero_le _), rfl, ?_⟩
  have hhigh : toU32 (ulSub ulongBits 0 1) = 4294967295 := by
    rw [toU32_ulSub_wrap ulongBits 0 1 hbits (by omega) (by omega)]
  have hmid : midpoint ulongBits 0 4294967295 = 2147483647 := by
    obtain ⟨k, hk, hW⟩ := two_pow_ulongBits ulongBits hbits
    rw [midpoint_eq ulongBits 0 4294967295 hbits (by omega) (by omega) (by omega)
      (by rw [hW]; omega)]
  have hcell : filled 0 2147483647 = some 0 := by
    unfold filled BUFFER_SIZE UINT32_MAX
    rw [if_neg (by omega), if_pos (by norm_num)]
  unfold binarySearch
  rw [hhigh]
  simp [binarySearchLoop, hmid, hcell]

/-- C4: for every buffer whose first `size` cells are readable and every key,
`sequenceSearch` returns the smallest index `m < size` with `bufferPtr[m] = key` when
some index below `size` holds the key, and it returns `-1` exactly when no index below
`size` holds the key. -/
theorem sequenceSearch_first_match (bufferPtr : Buffer) (size key : Nat)
    (hread : ∀ i, i < size → (bufferPtr i).isSome = true) :
    ((∃ i, i < size ∧ bufferPtr i = some key) →
      ∃ m, m < size ∧ bufferPtr m = some key ∧ (∀ j, j < m → bufferPtr j ≠ some key) ∧
        sequenceSearch bufferPtr size key = .ok (m : Int)) ∧
    (sequenceSearch bufferPtr size key = .ok (-1) ↔
      ∀ i, i < size → bufferPtr i ≠ some key) := by
  have hfirst : (∃ i, i < size ∧ bufferPtr i = some key) →
      ∃ m, m < size ∧ bufferPtr m = some key ∧ (∀ j, j < m → bufferPtr j ≠ some key) ∧
        sequenceSearch bufferPtr size key = .ok (m : Int) := by
    intro hex
    have hspec := Nat.find_spec hex
    have hmin : ∀ j, j < Nat.find hex → bufferPtr j ≠ some key := by
      intro j hj hjk
      exact Nat.find_min hex hj ⟨by omega, hjk⟩
    refine ⟨Nat.find hex, hspec.1, hspec.2, hmin, ?_⟩
    unfold sequenceSearch
    apply sequenceSearchLoop_found bufferPtr key (Nat.find hex) hspec.2 size 0 (Nat.zero_le _)
      (by omega)
    intro i _ hi
    obtain ⟨v, hv⟩ := Option.isSome_iff_exists.mp (hread i (by omega))
    refine ⟨v, hv, ?_⟩
    intro hvk
    exact hmin i hi (by rw [hv, hvk])
  refine ⟨hfirst, ?_, ?_⟩
  · intro hres i hi hik
    obtain ⟨m, _, _, _, hm⟩ := hfirst ⟨i, hi, hik⟩
    rw [hm] at hres
    have h := Except.ok.inj hres
    omega
  · intro hnone
    unfold sequenceSearch
    apply sequenceSearchLoop_absent
    intro i _ hi
    obtain ⟨v, hv⟩ := Option.isSome_iff_exists.mp (hread i (by omega))
    refine ⟨v, hv, ?_⟩
    intro hvk
    exact hnone i (by omega) (by rw [hv, hvk])

/-- Instance of the C4 statement: the buffer `7, 5, 5`, size 3, key 5. -/
theorem sequenceSearch_first_match_witness :
    ((∃ i, i < 3 ∧ sampleBuffer i = some 5) →
      ∃ m, m < 3 ∧ sampleBuffer m = some 5 ∧ (∀ j, j < m → sampleBuffer j ≠ some 5) ∧
        sequenceSearch sampleBuffer 3 5 = .ok (m : Int)) ∧
    (sequenceSearch sampleBuffer 3 5 = .ok (-1) ↔ ∀ i, i < 3 → sampleBuffer i ≠ some 5) :=
  sequenceSearch_first_match sampleBuffer 3 5 (by decide)

/-- C5 fails on the code for `binarySearch` where `unsigned long` has 64 bits.  For size 1
the benchmark key `1 - 2UL` is `4294967295` and `sequenceSearch` returns `-1` on the
dataset `[0]`; `binarySearch` computes `mid = 4294967295` from `high - 1UL` with
`high = 0` and reads `dataset[4294967295]`, one cell past the end of the array, instead of
returning `-1`.  Accordingly the run with arguments `("s", "1")` prints the search failure,
and the run with `("b", "1")` ends in that out-of-bounds read. -/
theorem binarySearch_size_one_reads_past_end :
    benchmarkKey 64 1 = 4294967295 ∧
    ∃ buffer, writeValues dataset 1 = .ok buffer ∧
      sequenceSearch buffer 1 4294967295 = .ok (-1) ∧
      (∀ fuel, binarySearch 64 (fuel + 1) buffer 1 4294967295
        = some (.error (.bufferIndex 4294967295))) ∧
      (∀ fuel, main 64 (fuel + 1) 3 ["search", "b", "1"]
        = some (.error (.bufferIndex 4294967295))) ∧
      main 64 0 3 ["search", "s", "1"] =
        some (.ok { trace := [.call .sequenceSearch 1 4294967295,
                              .print (.searchFailure (some "Sequencial"))],
                    dataset := buffer }) := by
  have hkey : benchmarkKey 64 1 = 4294967295 := by decide
  have hseq : sequenceSearch (filled 1) 1 4294967295 = .ok (-1) :=
    sequenceSearch_filled_absent 1 4294967295 (by omega)
  have hbin : ∀ fuel, binarySearch 64 (fuel + 1) (filled 1) 1 4294967295
      = some (.error (.bufferIndex 4294967295)) := by
    intro fuel
    have hhigh : toU32 (ulSub 64 1 1) = 0 := by decide
    have hmid : midpoint 64 0 0 = 4294967295 := by decide
    have hcell : filled 1 4294967295 = none := by
      unfold filled BUFFER_SIZE UINT32_MAX
      rw [if_neg (by omega), if_neg (by norm_num)]
    unfold binarySearch
    rw [hhigh]
    simp [binarySearchLoop, hmid, hcell]
  refine ⟨hkey, filled 1, writeValues_dataset 1 (by decide), hseq, hbin, ?_, ?_⟩
  · intro fuel
    have hreq : getSearchType 64 3 ["search", "b", "1"] =
        .ok { type := .BINARY_SEARCH, callback := some .binarySearch, key := 'b',
              log := some "Binaria", size := 1 } := rfl
    rw [main_of_request 64 (fuel + 1) 3 _ _ hreq (by simp) (by decide)]
    simp only [benchmarking, callAlgorithm, hkey, hbin fuel]
  · have hreq : getSearchType 64 3 ["search", "s", "1"] =
        .ok { type := .SEQUENTIAL_SEARCH, callback := some .sequenceSearch, key := 's',
              log := some "Sequencial", size := 1 } := rfl
    rw [main_of_request 64 0 3 _ _ hreq (by simp) (by decide)]
    simp [benchmarking, callAlgorithm, hkey, hseq]

/-- Where `unsigned long` has 32 bits the same call probes `dataset[2147483647]`, which
holds 0, moves `low` to `2147483648 > high` and returns `-1`. -/
theorem binarySearch_size_one_ulong32 :
    benchmarkKey 32 1 = 4294967295 ∧
    ∃ buffer, writeValues dataset 1 = .ok buffer ∧
      ∀ fuel, binarySearch 32 (fuel + 2) buffer 1 4294967295 = some (.ok (-1)) := by
  refine ⟨by decide, filled 1, writeValues_dataset 1 (by decide), ?_⟩
  intro fuel
  have hhigh : toU32 (ulSub 32 1 1) = 0 := by decide
  have hmid : midpoint 32 0 0 = 2147483647 := by decide
  have hcell : filled 1 2147483647 = some 0 := by
    unfold filled BUFFER_SIZE UINT32_MAX
    rw [if_neg (by omega), if_pos (by norm_num)]
  have hnext : nextLow 32 2147483647 0 4294967295 = 2147483648 := by decide
  unfold binarySearch
  rw [hhigh]
  simp [binarySearchLoop, hmid, hcell, hnext]

/-! ## Claims about whole runs -/

/-- C6 fails on the code.  With arguments `("b", "0")` the request is the binary search
with size 0; `binarySearch` then starts with `high = UINT32_MAX` and key `4294967294` on a
dataset of zeros, every probe is smaller than the key and `low` can never exceed `high`:
`main` produces no result whatever the fuel, so it prints no outcome message. -/
theorem main_binary_size_zero_never_ends (ulongBits : Nat) (hbits : 32 ≤ ulongBits) :
    getSearchType ulongBits 3 ["search", "b", "0"] =
      .ok { type := .BINARY_SEARCH, callback := some .binarySearch, key := 'b',
            log := some "Binaria", size := 0 } ∧
    ∀ fuel, main ulongBits fuel 3 ["search", "b", "0"] = none := by
  have hcount : toU32 (strtoul ulongBits "0".toList) = 0 := by
    rw [strtoul_of_digits ulongBits "0".toList (by decide) (Nat.two_pow_pos _)]
    rfl
  have hreq := getSearchType_binary ulongBits 3 "search" "b" "0" [] (le_refl _) (by decide)
  rw [hcount] at hreq
  refine ⟨hreq, ?_⟩
  intro fuel
  rw [main_of_request ulongBits fuel 3 _ _ hreq (by simp) (by simp)]
  have hkey : benchmarkKey ulongBits 0 = 4294967294 := by
    unfold benchmarkKey
    rw [toU32_ulSub_wrap ulongBits 0 2 hbits (by omega) (by omega)]
  have hhigh : toU32 (ulSub ulongBits 0 1) = 4294967295 := by
    rw [toU32_ulSub_wrap ulongBits 0 1 hbits (by omega) (by omega)]
  have hstuck : binarySearch ulongBits fuel (filled 0) 0 4294967294 = none := by
    unfold binarySearch
    rw [hhigh]
    apply binarySearchLoop_stuck ulongBits (filled 0) 4294967295 4294967294 hbits (by omega)
      (by omega)
    · intro i hi
      refine ⟨0, ?_, by omega⟩
      unfold filled BUFFER_SIZE UINT32_MAX
      rw [if_neg (by omega), if_pos (by omega)]
    · omega
  simp only [benchmarking, callAlgorithm, hkey, hstuck]

/-- Instance of the C6 statement for 64-bit `unsigned long`. -/
theorem main_binary_size_zero_never_ends_witness :
    getSearchType 64 3 ["search", "b", "0"] =
      .ok { type := .BINARY_SEARCH, callback := some .binarySearch, key := 'b',
            log := some "Binaria", size := 0 } ∧
    ∀ fuel, main 64 fuel 3 ["search", "b", "0"] = none :=
  main_binary_size_zero_never_ends 64 (by decide)

/-! ## Claims about `getSearchType` -/

/-- C8 as stated fails: for the element count `"4294967296"`, whose base-10 value is
`4294967296`, the request resolved for selector `b` has `size = 0` with 64-bit
`unsigned long` (the value is truncated to `uint32_t`) and `size = 4294967295` with
32-bit `unsigned long` (`strtoul` saturates at `ULONG_MAX`). -/
theorem getSearchType_count_not_base10_value :
    decimalValue "4294967296".toList = 4294967296 ∧
    (∃ request, getSearchType 64 3 ["search", "b", "4294967296"] = .ok request ∧
      request.size = 0 ∧ request.size ≠ decimalValue "4294967296".toList) ∧
    (∃ request, getSearchType 32 3 ["search", "b", "4294967296"] = .ok request ∧
      request.size = 4294967295 ∧ request.size ≠ decimalValue "4294967296".toList) :=
  ⟨by decide, ⟨_, rfl, rfl, by decide⟩, ⟨_, rfl, rfl, by decide⟩⟩

/-- C8, amended: for every argument list with at least 3 arguments, `getSearchType`
resolves a selector starting with `b` to the request with kind `BINARY_SEARCH`, callback
`binarySearch` and label `Binaria`, and a selector starting with `s` to kind
`SEQUENTIAL_SEARCH`, callback `sequenceSearch` and label `Sequencial`, whatever the
element-count argument is; in both cases `size` is the result of `strtoul` on the
element-count argument converted to `uint32_t`, and this is the base-10 value of that
argument when it is a string of decimal digits whose value is below `2 ^ 32`. -/
theorem getSearchType_matched_selector (ulongBits : Nat) (name selector count : String)
    (rest : List String) (hbits : 32 ≤ ulongBits)
    (hsel : firstChar selector = 'b' ∨ firstChar selector = 's') :
    getSearchType ulongBits (name :: selector :: count :: rest).length
        (name :: selector :: count :: rest) =
      .ok { type := if firstChar selector = 'b' then .BINARY_SEARCH else .SEQUENTIAL_SEARCH,
            callback :=
              some (if firstChar selector = 'b' then .binarySearch else .sequenceSearch),
            key := firstChar selector,
            log := some (if firstChar selector = 'b' then "Binaria" else "Sequencial"),
            size := toU32 (strtoul ulongBits count.toList) } ∧
    ((∀ c, c ∈ count.toList → isdigit c = true) → decimalValue count.toList < 2 ^ 32 →
      toU32 (strtoul ulongBits count.toList) = decimalValue count.toList) := by
  have hlen : 3 ≤ (name :: selector :: count :: rest).length := by simp
  have hpow : 2 ^ 32 ≤ 2 ^ ulongBits := Nat.pow_le_pow_right (by norm_num) hbits
  refine ⟨?_, ?_⟩
  · rcases hsel with hb | hs
    · rw [getSearchType_binary ulongBits _ name selector count rest hlen hb]
      simp only [hb, if_true]
    · have hnb : ¬ firstChar selector = 'b' := by rw [hs]; decide
      rw [getSearchType_sequential ulongBits _ name selector count rest hlen hs]
      rw [if_neg hnb, if_neg hnb, if_neg hnb, hs]
  · intro hdigits hvalue
    rw [strtoul_of_digits ulongBits count.toList hdigits (by omega)]
    exact toU32_of_lt (by omega)

/-- Instance of the amended C8 statement: arguments `("s", "10")`, 64-bit
`unsigned long`; the count `"10"` is a string of digits with value 10, and the size of the
request is 10. -/
theorem getSearchType_matched_selector_witness :
    getSearchType 64 ["search", "s", "10"].length ["search", "s", "10"] =
      .ok { type := if firstChar "s" = 'b' then .BINARY_SEARCH else .SEQUENTIAL_SEARCH,
            callback := some (if firstChar "s" = 'b' then .binarySearch else .sequenceSearch),
            key := firstChar "s",
            log := some (if firstChar "s" = 'b' then "Binaria" else "Sequencial"),
            size := toU32 (strtoul 64 "10".toList) } ∧
    (∀ c, c ∈ "10".toList → isdigit c = true) ∧ decimalValue "10".toList < 2 ^ 32 ∧
    toU32 (strtoul 64 "10".toList) = decimalValue "10".toList ∧
    decimalValue "10".toList = 10 :=
  ⟨(getSearchType_matched_selector 64 "search" "s" "10" [] (by decide) (by decide)).1,
    by decide, by decide,
    (getSearchType_matched_selector 64 "search" "s" "10" [] (by decide) (by decide)).2
      (by decide) (by decide),
    by decide⟩

/-- C9: whenever `parametersQuantity` is below 3, `getSearchType` yields the sentinel
request `search[NULL_SEARCH]` (type `NULL_SEARCH`, callback unset) whatever the argument
vector holds, also when it has no element at the selector or count position (reading one
would be `Fault.argIndex`): no element of `argsPtr` is read. -/
theorem getSearchType_too_few_arguments (ulongBits parametersQuantity : Nat)
    (argsPtr : List String) (hfew : parametersQuantity < 3) :
    getSearchType ulongBits parametersQuantity argsPtr = .ok nullSearch ∧
    nullSearch.type = .NULL_SEARCH ∧ nullSearch.callback = none := by
  unfold getSearchType NUM_INPUTS
  rw [if_pos hfew]
  exact ⟨rfl, rfl, rfl⟩

/-- Instance of the C9 statement: program name and selector only. -/
theorem getSearchType_too_few_arguments_witness :
    getSearchType 64 2 ["search", "b"] = .ok nullSearch ∧
    nullSearch.type = .NULL_SEARCH ∧ nullSearch.callback = none :=
  getSearchType_too_few_arguments 64 2 ["search", "b"] (by decide)

/-- C10: for every argument list with at least 3 arguments whose selector starts with
neither `b` nor `s`, `getSearchType` yields a request of type `NULL_SEARCH` with an unset
callback.  The request is the sentinel `search[NULL_SEARCH]`, except that an empty
selector matches the zero `key` of the sentinel entry and then `size` is set from the
element count. -/
theorem getSearchType_unknown_selector (ulongBits : Nat) (name selector count : String)
    (rest : List String) (hb : firstChar selector ≠ 'b') (hs : firstChar selector ≠ 's') :
    ∃ request,
      getSearchType ulongBits (name :: selector :: count :: rest).length
        (name :: selector :: count :: rest) = .ok request ∧
      request.type = .NULL_SEARCH ∧ request.callback = none ∧
      request = { nullSearch with
        size := if firstChar selector = Char.ofNat 0
          then toU32 (strtoul ulongBits count.toList) else 0 } := by
  have hlen : ¬ (name :: selector :: count :: rest).length < 3 := by simp
  have hb2 : ¬ 'b' = firstChar selector := fun h => hb h.symm
  have hs2 : ¬ 's' = firstChar selector := fun h => hs h.symm
  unfold getSearchType NUM_INPUTS
  rw [if_neg hlen]
  by_cases h0 : firstChar selector = Char.ofNat 0
  · refine ⟨{ nullSearch with size := toU32 (strtoul ulongBits count.toList) }, ?_, rfl, rfl, ?_⟩
    · simp [search, getSearchTypeLoop, SEARCH_TYPE_INPUT, NUMBER_ELEMENTS_INPUT, hb2, hs2, h0,
        nullSearch]
    · rw [if_pos h0]
  · have h02 : ¬ Char.ofNat 0 = firstChar selector := fun h => h0 h.symm
    refine ⟨nullSearch, ?_, rfl, rfl, ?_⟩
    · simp [search, getSearchTypeLoop, SEARCH_TYPE_INPUT, NUMBER_ELEMENTS_INPUT, hb2, hs2,
        nullSearch, h02]
    · rw [if_neg h0]
      rfl

/-- Instance of the C10 statement: arguments `("x", "10")`. -/
theorem getSearchType_unknown_selector_witness :
    ∃ request,
      getSearchType 64 ["search", "x", "10"].length ["search", "x", "10"] = .ok request ∧
      request.type = .NULL_SEARCH ∧ request.callback = none ∧
      request = { nullSearch with
        size := if firstChar "x" = Char.ofNat 0 then toU32 (strtoul 64 "10".toList) else 0 } :=
  getSearchType_unknown_selector 64 "search" "x" "10" [] (by decide) (by decide)

/-! ## Malformed element counts -/

theorem digitsValue_of_no_digit (digits : List Char)
    (hnone : ∀ c, digits.head? = some c → isdigit c = false) : digitsValue digits 0 = 0 := by
  cases digits with
  | nil => rfl
  | cons c cs =>
    have hc : isdigit c = false := hnone c rfl
    simp [digitsValue, hc]

theorem strtoul_of_no_digit (ulongBits : Nat) (nptr : List Char)
    (hnone : ∀ c, (digitsStart nptr).head? = some c → isdigit c = false) :
    strtoul ulongBits nptr = 0 := by
  have hvalue := digitsValue_of_no_digit (digitsStart nptr) hnone
  unfold digitsStart at hvalue
  have hpos : ¬ 2 ^ ulongBits ≤ 0 := Nat.not_le.mpr (Nat.two_pow_pos _)
  unfold strtoul ulSub
  simp only [hvalue, if_neg hpos]
  split
  · simp
  · rfl

/-- C11 as stated fails: the counts `"12abc"` and `"-1"` are not strings of decimal
digits, yet the request resolved for selector `b` has `size = 12`, respectively
`size = 4294967295`, not 0. -/
theorem getSearchType_malformed_count_not_zero :
    ¬ (∀ c, c ∈ "12abc".toList → isdigit c = true) ∧
    (∃ request, getSearchType 64 3 ["search", "b", "12abc"] = .ok request ∧
      request.size = 12 ∧ request.size ≠ 0) ∧
    ¬ (∀ c, c ∈ "-1".toList → isdigit c = true) ∧
    (∃ request, getSearchType 64 3 ["search", "b", "-1"] = .ok request ∧
      request.size = 4294967295 ∧ request.size ≠ 0) :=
  ⟨by decide, ⟨_, rfl, rfl, by decide⟩, by decide, ⟨_, rfl, rfl, by decide⟩⟩

/-- C11, amended: for a selector starting with `b` or `s` and every element-count argument
that has no decimal digit where `strtoul` looks for one (after the leading white space and
one optional sign), `getSearchType` sets `size` to 0 and signals no error: it returns the
request with the matched kind, callback and label. -/
theorem getSearchType_count_without_digits (ulongBits : Nat) (name selector count : String)
    (rest : List String) (hsel : firstChar selector = 'b' ∨ firstChar selector = 's')
    (hnone : ∀ c, (digitsStart count.toList).head? = some c → isdigit c = false) :
    getSearchType ulongBits (name :: selector :: count :: rest).length
        (name :: selector :: count :: rest) =
      .ok { type := if firstChar selector = 'b' then .BINARY_SEARCH else .SEQUENTIAL_SEARCH,
            callback :=
              some (if firstChar selector = 'b' then .binarySearch else .sequenceSearch),
            key := firstChar selector,
            log := some (if firstChar selector = 'b' then "Binaria" else "Sequencial"),
            size := 0 } := by
  have hlen : 3 ≤ (name :: selector :: count :: rest).length := by simp
  have hzero : toU32 (strtoul ulongBits count.toList) = 0 := by
    rw [strtoul_of_no_digit ulongBits count.toList hnone]
    rfl
  rcases hsel with hb | hs
  · rw [getSearchType_binary ulongBits _ name selector count rest hlen hb, hzero]
    simp only [hb, if_true]
  · have hnb : ¬ firstChar selector = 'b' := by rw [hs]; decide
    rw [getSearchType_sequential ulongBits _ name selector count rest hlen hs, hzero]
    rw [if_neg hnb, if_neg hnb, if_neg hnb, hs]

/-- Instance of the amended C11 statement: arguments `("s", "abc")`. -/
theorem getSearchType_count_without_digits_witness :
    getSearchType 64 ["search", "s", "abc"].length ["search", "s", "abc"] =
      .ok { type := if firstChar "s" = 'b' then .BINARY_SEARCH else .SEQUENTIAL_SEARCH,
            callback := some (if firstChar "s" = 'b' then .binarySearch else .sequenceSearch),
            key := firstChar "s",
            log := some (if firstChar "s" = 'b' then "Binaria" else "Sequencial"),
            size := 0 } :=
  getSearchType_count_without_digits 64 "search" "s" "abc" [] (by decide) (by decide)

/-! ## `writeValues` on an arbitrary array -/

/-- C12: for every size `n` and every array with at least `n` cells, `writeValues`
succeeds; afterwards every index `i < n` holds the value `i`, so the first `n` elements are
strictly ascending, and every cell at an index `≥ n` is unchanged. -/
theorem writeValues_fills (arrayPtr : Buffer) (n : Nat)
    (hread : ∀ i, i < n → (arrayPtr i).isSome = true) :
    ∃ written, writeValues arrayPtr n = .ok written ∧
      (∀ i, i < n → written i = some i) ∧
      (∀ i j, i < j → j < n →
        ∃ vi vj, written i = some vi ∧ written j = some vj ∧ vi < vj) ∧
      (∀ i, n ≤ i → written i = arrayPtr i) := by
  have hok := writeValuesLoop_ok n arrayPtr 0 (fun i _ hi => hread i (by omega))
  refine ⟨_, hok, ?_, ?_, ?_⟩
  · intro i hi
    simp only [if_pos (show 0 ≤ i ∧ i < 0 + n from ⟨Nat.zero_le _, by omega⟩)]
  · intro i j hij hj
    refine ⟨i, j, ?_, ?_, hij⟩
    · simp only [if_pos (show 0 ≤ i ∧ i < 0 + n from ⟨Nat.zero_le _, by omega⟩)]
    · simp only [if_pos (show 0 ≤ j ∧ j < 0 + n from ⟨Nat.zero_le _, by omega⟩)]
  · intro i hi
    simp only [if_neg (show ¬ (0 ≤ i ∧ i < 0 + n) by omega)]

/-- Instance of the C12 statement: the buffer `7, 5, 5` and size 2. -/
theorem writeValues_fills_witness :
    ∃ written, writeValues sampleBuffer 2 = .ok written ∧
      (∀ i, i < 2 → written i = some i) ∧
      (∀ i j, i < j → j < 2 →
        ∃ vi vj, written i = some vi ∧ written j = some vj ∧ vi < vj) ∧
      (∀ i, 2 ≤ i → written i = sampleBuffer i) :=
  writeValues_fills sampleBuffer 2 (by decide)

/-! ## The searches do not write to the buffer -/

theorem sequenceSearchStateLoop_eq (memory : Buffer) (key : Nat) :
    ∀ (remaining index : Nat),
      sequenceSearchStateLoop key index remaining memory =
        (sequenceSearchLoop memory key index remaining, memory) := by
  intro remaining
  induction remaining with
  | zero => intro index; rfl
  | succ r ih =>
    intro index
    simp only [sequenceSearchStateLoop, sequenceSearchLoop]
    cases hcell : memory index with
    | none => rfl
    | some value =>
      by_cases hv : value = key
      · simp only [if_pos hv]
      · simp only [if_neg hv]
        exact ih (index + 1)

theorem binarySearchStateLoop_eq (ulongBits : Nat) (memory : Buffer) (high key : Nat) :
    ∀ (fuel low : Nat),
      binarySearchStateLoop ulongBits high key fuel low memory =
        (binarySearchLoop ulongBits memory high key fuel low).map (fun r => (r, memory)) := by
  intro fuel
  induction fuel with
  | zero => intro low; rfl
  | succ f ih =>
    intro low
    simp only [binarySearchStateLoop, binarySearchLoop]
    by_cases hle : low ≤ high
    · simp only [if_pos hle]
      cases hcell : memory (midpoint ulongBits low high) with
      | none => rfl
      | some value =>
        by_cases hv : value = key
        · simp only [if_pos hv, Option.map_some']
        · simp only [if_neg hv]
          exact ih _
    · simp only [if_neg hle, Option.map_some']

/-- C13: for every buffer, size and key, the memory behind `bufferPtr` after
`sequenceSearch` equals the memory before the call, and the same holds for `binarySearch`
whenever it comes to an end; the values returned are those of the two functions. -/
theorem search_leaves_buffer_unchanged (ulongBits : Nat) (memory : Buffer) (size key : Nat) :
    sequenceSearchState memory size key = (sequenceSearch memory size key, memory) ∧
    (sequenceSearchState memory size key).2 = memory ∧
    (∀ fuel, binarySearchState ulongBits fuel memory size key =
      (binarySearch ulongBits fuel memory size key).map (fun r => (r, memory))) ∧
    (∀ fuel result after, binarySearchState ulongBits fuel memory size key
      = some (result, after) → after = memory) := by
  have hseq : sequenceSearchState memory size key = (sequenceSearch memory size key, memory) :=
    sequenceSearchStateLoop_eq memory key size 0
  have hbin : ∀ fuel, binarySearchState ulongBits fuel memory size key =
      (binarySearch ulongBits fuel memory size key).map (fun r => (r, memory)) :=
    fun fuel => binarySearchStateLoop_eq ulongBits memory _ key fuel 0
  refine ⟨hseq, by rw [hseq], hbin, ?_⟩
  intro fuel result after h
  rw [hbin fuel] at h
  cases hres : binarySearch ulongBits fuel memory size key with
  | none => rw [hres] at h; simp at h
  | some r =>
    rw [hres] at h
    simp only [Option.map_some', Option.some.injEq, Prod.mk.injEq] at h
    exact h.2.symm

/-! ## Sentinel requests -/

theorem getSearchType_null_callback (ulongBits parametersQuantity : Nat)
    (argsPtr : List String) (request : search_t)
    (hreq : getSearchType ulongBits parametersQuantity argsPtr = .ok request)
    (htype : request.type = .NULL_SEARCH) : request.callback = none := by
  unfold getSearchType at hreq
  split at hreq
  · cases hreq
    rfl
  · simp only [search, getSearchTypeLoop] at hreq
    repeat' split at hreq
    all_goals
      cases hreq <;> first
        | rfl
        | exact absurd htype (by simp)

/-- C14: for every argument list that `getSearchType` resolves to a request of type
`NULL_SEARCH`, the callback of that request is unset and the run prints the dispatch
failure and nothing else: its trace has no call of a search algorithm and `dataset` is as
at program start.  `benchmarking` called with a request whose callback is unset prints its
failure message and calls no algorithm either. -/
theorem main_sentinel_request (ulongBits fuel parametersQuantity : Nat)
    (argsPtr : List String) (request direct : search_t)
    (hreq : getSearchType ulongBits parametersQuantity argsPtr = .ok request)
    (htype : request.type = .NULL_SEARCH) (hdirect : direct.callback = none) :
    request.callback = none ∧
    main ulongBits fuel parametersQuantity argsPtr =
      some (.ok { trace := [.print .dispatchFailure], dataset := dataset }) ∧
    ∀ bufferPtr, benchmarking ulongBits fuel direct bufferPtr
      = some (.ok [.print .nullCallback]) := by
  refine ⟨getSearchType_null_callback ulongBits parametersQuantity argsPtr request hreq htype,
    ?_, ?_⟩
  · unfold main
    simp only [hreq, if_pos htype]
  · intro bufferPtr
    unfold benchmarking
    simp only [hdirect]

/-- Instance of the C14 statement: arguments `("x", "10")`, and the sentinel entry of the
table passed to `benchmarking`. -/
theorem main_sentinel_request_witness :
    nullSearch.callback = none ∧
    main 64 0 3 ["search", "x", "10"] =
      some (.ok { trace := [.print .dispatchFailure], dataset := dataset }) ∧
    ∀ bufferPtr, benchmarking 64 0 nullSearch bufferPtr = some (.ok [.print .nullCallback]) :=
  main_sentinel_request 64 0 3 ["search", "x", "10"] nullSearch nullSearch rfl rfl rfl

/-! ## Behaviour of the loop of `binarySearch` -/

theorem nextLow_of_gt (ulongBits mid value key : Nat) (hbits : 32 ≤ ulongBits)
    (hv : key < value) (hpos : 1 ≤ mid) (hmid : mid < 4294967296) :
    nextLow ulongBits mid value key = mid - 1 := by
  unfold nextLow
  rw [if_neg (by omega), ulSub_of_le ulongBits mid 1 hbits hpos hmid, toU32_of_lt (by omega)]

/-- C16 fails on the code.  For every strictly ascending buffer of size `n ≥ 2`, searching
for its last element never terminates: `sequenceSearch` returns index `n - 1`, while
`binarySearch` produces no result whatever the fuel, because every probe is below `n - 1`
and holds a smaller value, and `low` stays at most `high`. -/
theorem binarySearch_ascending_never_terminates (ulongBits n key : Nat) (bufferPtr : Buffer)
    (hbits : 32 ≤ ulongBits) (hn : 2 ≤ n) (hmax : n ≤ UINT32_MAX)
    (hread : ∀ i, i < n → (bufferPtr i).isSome = true)
    (hasc : ∀ i j vi vj, i < j → j < n → bufferPtr i = some vi → bufferPtr j = some vj →
      vi < vj)
    (hlast : bufferPtr (n - 1) = some key) :
    sequenceSearch bufferPtr n key = .ok ((n - 1 : Nat) : Int) ∧
    ∀ fuel, binarySearch ulongBits fuel bufferPtr n key = none := by
  unfold UINT32_MAX at hmax
  have hbelow : ∀ i, i < n - 1 → ∃ v, bufferPtr i = some v ∧ v < key := by
    intro i hi
    obtain ⟨v, hv⟩ := Option.isSome_iff_exists.mp (hread i (by omega))
    exact ⟨v, hv, hasc i (n - 1) v key hi (by omega) hv hlast⟩
  refine ⟨?_, ?_⟩
  · unfold sequenceSearch
    apply sequenceSearchLoop_found bufferPtr key (n - 1) hlast n 0 (Nat.zero_le _) (by omega)
    intro i _ hi
    obtain ⟨v, hv, hlt⟩ := hbelow i hi
    exact ⟨v, hv, by omega⟩
  · intro fuel
    unfold binarySearch
    rw [high_of_pos ulongBits n hbits (by omega) (by omega)]
    exact binarySearchLoop_stuck ulongBits bufferPtr (n - 1) key hbits (by omega) (by omega)
      hbelow fuel 0 (Nat.zero_le _)

/-- Instance of the C16 statement: the ascending buffer `1, 3, 5`, size 3, key 5. -/
theorem binarySearch_ascending_never_terminates_witness :
    sequenceSearch ascendingSample 3 5 = .ok ((3 - 1 : Nat) : Int) ∧
    ∀ fuel, binarySearch 64 fuel ascendingSample 3 5 = none :=
  binarySearch_ascending_never_terminates 64 3 5 ascendingSample (by decide) (by decide)
    (by decide) (by decide)
    (by
      intro i j vi vj hij hj hi hjv
      have hi3 : i < 3 := by omega
      interval_cases j <;> interval_cases i <;> simp [ascendingSample] at hi hjv <;> omega)
    (by decide)

/-- C17 fails on the code in the branch `bufferPtr[mid] >= key`.  On the dataset `0 .. 9`
with key 0 the first probe is `mid = 4` and `bufferPtr[4] = 4 > 0`; the loop then continues
with `low = mid - 1 = 3` and the same `high = 9`, so the range is `[3, 9]` and not the
lower half `[0, 3]`, and the next probes are at the indices 5 and 6, which are `≥ mid`. -/
theorem binarySearch_lower_branch_moves_low :
    ∃ buffer, writeValues dataset 10 = .ok buffer ∧
      toU32 (ulSub 64 10 1) = 9 ∧ midpoint 64 0 9 = 4 ∧ buffer 4 = some 4 ∧
      nextLow 64 4 4 0 = 3 ∧
      (∀ fuel, binarySearch 64 (fuel + 1) buffer 10 0 = binarySearchLoop 64 buffer 9 0 fuel 3) ∧
      binarySearchProbes 64 buffer 9 0 4 0 = [4, 5, 6, 6] := by
  refine ⟨filled 10, writeValues_dataset 10 (by decide), by decide, by decide, rfl, by decide,
    ?_, by decide⟩
  intro fuel
  rfl

/-! ## Indices read by `binarySearch` -/

theorem binarySearchProbes_le (ulongBits : Nat) (bufferPtr : Buffer) (high key : Nat)
    (hbits : 32 ≤ ulongBits) (hpos : 1 ≤ high) (hhigh : high < 4294967296) :
    ∀ (fuel low m : Nat),
      m ∈ binarySearchProbes ulongBits bufferPtr high key fuel low → m ≤ high - 1 := by
  intro fuel
  induction fuel with
  | zero => intro low m hm; simp [binarySearchProbes] at hm
  | succ f ih =>
    intro low m hm
    simp only [binarySearchProbes] at hm
    by_cases hle : low ≤ high
    · have hmid := midpoint_le ulongBits low high hbits hle hpos hhigh
      rw [if_pos hle] at hm
      cases hcell : bufferPtr (midpoint ulongBits low high) with
      | none =>
        rw [hcell] at hm
        simp only [List.mem_singleton] at hm
        omega
      | some value =>
        rw [hcell] at hm
        simp only at hm
        by_cases hv : value = key
        · rw [if_pos hv] at hm
          simp only [List.mem_singleton] at hm
          omega
        · rw [if_neg hv] at hm
          rcases List.mem_cons.mp hm with h | h
          · omega
          · exact ih _ m h
    · rw [if_neg hle] at hm
      simp at hm

theorem binarySearchLoop_restrict (ulongBits : Nat) (bufferPtr : Buffer) (high key : Nat)
    (hbits : 32 ≤ ulongBits) (hpos : 1 ≤ high) (hhigh : high < 4294967296) :
    ∀ (fuel low : Nat),
      binarySearchLoop ulongBits bufferPtr high key fuel low =
        binarySearchLoop ulongBits (fun i => if i ≤ high - 1 then bufferPtr i else none)
          high key fuel low := by
  intro fuel
  induction fuel with
  | zero => intro low; rfl
  | succ f ih =>
    intro low
    simp only [binarySearchLoop]
    by_cases hle : low ≤ high
    · have hmid := midpoint_le ulongBits low high hbits hle hpos hhigh
      simp only [if_pos hle, if_pos hmid]
      cases hcell : bufferPtr (midpoint ulongBits low high) with
      | none => rfl
      | some value =>
        by_cases hv : value = key
        · simp only [if_pos hv]
        · simp only [if_neg hv]
          exact ih _
    · simp only [if_neg hle]

theorem binarySearchLoop_result (ulongBits : Nat) (bufferPtr : Buffer) (high key : Nat)
    (hbits : 32 ≤ ulongBits) (hpos : 1 ≤ high) (hhigh : high < 4294967296) :
    ∀ (fuel low : Nat) (r : Int),
      binarySearchLoop ulongBits bufferPtr high key fuel low = some (.ok r) → 0 ≤ r →
      r.toNat ≤ high - 1 ∧ bufferPtr r.toNat = some key := by
  intro fuel
  induction fuel with
  | zero => intro low r h; simp [binarySearchLoop] at h
  | succ f ih =>
    intro low r h hr
    simp only [binarySearchLoop] at h
    by_cases hle : low ≤ high
    · have hmid := midpoint_le ulongBits low high hbits hle hpos hhigh
      rw [if_pos hle] at h
      cases hcell : bufferPtr (midpoint ulongBits low high) with
      | none =>
        rw [hcell] at h
        simp at h
      | some value =>
        rw [hcell] at h
        simp only at h
        by_cases hv : value = key
        · rw [if_pos hv] at h
          simp only [Option.some.injEq, Except.ok.injEq] at h
          subst h
          rw [Int.toNat_ofNat]
          exact ⟨hmid, by rw [hcell, hv]⟩
        · rw [if_neg hv] at h
          exact ih _ r h hr
    · rw [if_neg hle] at h
      simp only [Option.some.injEq, Except.ok.injEq] at h
      omega

theorem binarySearchLoop_no_fault (ulongBits : Nat) (bufferPtr : Buffer) (high key : Nat)
    (hbits : 32 ≤ ulongBits) (hpos : 1 ≤ high) (hhigh : high < 4294967296)
    (hread : ∀ i, i < high → (bufferPtr i).isSome = true) :
    ∀ (fuel low : Nat) (fault : Fault),
      binarySearchLoop ulongBits bufferPtr high key fuel low ≠ some (.error fault) := by
  intro fuel
  induction fuel with
  | zero => intro low fault h; simp [binarySearchLoop] at h
  | succ f ih =>
    intro low fault h
    simp only [binarySearchLoop] at h
    by_cases hle : low ≤ high
    · have hmid := midpoint_le ulongBits low high hbits hle hpos hhigh
      obtain ⟨value, hcell⟩ := Option.isSome_iff_exists.mp
        (hread (midpoint ulongBits low high) (by omega))
      rw [if_pos hle, hcell] at h
      simp only at h
      by_cases hv : value = key
      · rw [if_pos hv] at h
        simp at h
      · rw [if_neg hv] at h
        exact ih _ fault h
    · rw [if_neg hle] at h
      simp at h

/-- C18: for every buffer with `n ≥ 2` cells and every key, every index that
`binarySearch` reads is at most `n - 2`: the list of its probes is bounded by `n - 2`, the
call behaves the same on the buffer cut down to the indices `0 .. n-2` (the last element
and everything after it are never examined), no read is out of bounds, and every
non-negative result `r` satisfies `r ≤ n - 2` and `bufferPtr[r] = key`. -/
theorem binarySearch_reads_below_last (ulongBits n key : Nat) (bufferPtr : Buffer)
    (hbits : 32 ≤ ulongBits) (hn : 2 ≤ n) (hmax : n ≤ UINT32_MAX)
    (hread : ∀ i, i < n → (bufferPtr i).isSome = true) :
    (∀ fuel m, m ∈ binarySearchProbes ulongBits bufferPtr (toU32 (ulSub ulongBits n 1)) key
      fuel 0 → m ≤ n - 2) ∧
    (∀ fuel, binarySearch ulongBits fuel bufferPtr n key =
      binarySearch ulongBits fuel (fun i => if i ≤ n - 2 then bufferPtr i else none) n key) ∧
    (∀ fuel fault, binarySearch ulongBits fuel bufferPtr n key ≠ some (.error fault)) ∧
    (∀ fuel r, binarySearch ulongBits fuel bufferPtr n key = some (.ok r) → 0 ≤ r →
      r.toNat ≤ n - 2 ∧ bufferPtr r.toNat = some key) := by
  unfold UINT32_MAX at hmax
  have hhigh : toU32 (ulSub ulongBits n 1) = n - 1 :=
    high_of_pos ulongBits n hbits (by omega) (by omega)
  have h2 : n - 1 - 1 = n - 2 := by omega
  unfold binarySearch
  rw [hhigh]
  refine ⟨?_, ?_, ?_, ?_⟩
  · intro fuel m hm
    have := binarySearchProbes_le ulongBits bufferPtr (n - 1) key hbits (by omega) (by omega)
      fuel 0 m hm
    omega
  · intro fuel
    have := binarySearchLoop_restrict ulongBits bufferPtr (n - 1) key hbits (by omega)
      (by omega) fuel 0
    rw [h2] at this
    exact this
  · intro fuel fault
    exact binarySearchLoop_no_fault ulongBits bufferPtr (n - 1) key hbits (by omega) (by omega)
      (fun i hi => hread i (by omega)) fuel 0 fault
  · intro fuel r h hr
    have := binarySearchLoop_result ulongBits bufferPtr (n - 1) key hbits (by omega) (by omega)
      fuel 0 r h hr
    rw [h2] at this
    exact this

/-- Instance of the C18 statement: the buffer `7, 5, 5`, size 3, key 5, 64-bit
`unsigned long`. -/
theorem binarySearch_reads_below_last_witness :
    (∀ fuel m, m ∈ binarySearchProbes 64 sampleBuffer (toU32 (ulSub 64 3 1)) 5 fuel 0 →
      m ≤ 3 - 2) ∧
    (∀ fuel, binarySearch 64 fuel sampleBuffer 3 5 =
      binarySearch 64 fuel (fun i => if i ≤ 3 - 2 then sampleBuffer i else none) 3 5) ∧
    (∀ fuel fault, binarySearch 64 fuel sampleBuffer 3 5 ≠ some (.error fault)) ∧
    (∀ fuel r, binarySearch 64 fuel sampleBuffer 3 5 = some (.ok r) → 0 ≤ r →
      r.toNat ≤ 3 - 2 ∧ sampleBuffer r.toNat = some 5) :=
  binarySearch_reads_below_last 64 3 5 sampleBuffer (by decide) (by decide) (by decide)
    (by decide)

/-! ## Results of `binarySearch` on the populated dataset -/

theorem binarySearchLoop_filled_result (ulongBits n key : Nat) (hbits : 32 ≤ ulongBits)
    (hn : 2 ≤ n) (hmax : n < 4294967296) :
    ∀ (fuel low : Nat) (result : Except Fault Int), low ≤ n - 1 →
      binarySearchLoop ulongBits (filled n) (n - 1) key fuel low = some result →
      result = .ok (key : Int) ∧ key ≤ n - 2 := by
  intro fuel
  induction fuel with
  | zero => intro low result _ h; simp [binarySearchLoop] at h
  | succ f ih =>
    intro low result hlow h
    have hmid := midpoint_le ulongBits low (n - 1) hbits hlow (by omega) (by omega)
    have hcell := filled_of_lt n (midpoint ulongBits low (n - 1)) (by omega)
    simp only [binarySearchLoop, if_pos hlow, hcell] at h
    by_cases hv : midpoint ulongBits low (n - 1) = key
    · rw [if_pos hv] at h
      simp only [Option.some.injEq] at h
      rw [← h, hv]
      exact ⟨rfl, by omega⟩
    · rw [if_neg hv] at h
      by_cases hlt : midpoint ulongBits low (n - 1) < key
      · rw [nextLow_of_lt ulongBits _ _ key hbits hlt (by omega)] at h
        exact ih _ result (by omega) h
      · rw [nextLow_of_gt ulongBits _ _ key hbits (by omega) (by omega) (by omega)] at h
        exact ih _ result (by omega) h

theorem binarySearch_filled_result (ulongBits n key fuel : Nat) (result : Except Fault Int)
    (hbits : 32 ≤ ulongBits) (hn : 2 ≤ n) (hmax : n < 4294967296)
    (hreturn : binarySearch ulongBits fuel (filled n) n key = some result) :
    result = .ok (key : Int) ∧ key ≤ n - 2 := by
  unfold binarySearch at hreturn
  rw [high_of_pos ulongBits n hbits (by omega) hmax] at hreturn
  exact binarySearchLoop_filled_result ulongBits n key hbits hn hmax fuel 0 result
    (Nat.zero_le _) hreturn

/-- C19: for every `n ≥ 2` and every key, on the dataset filled by `writeValues` with
`0 .. n-1`, whenever `binarySearch` comes to an end (with whatever fuel) its result is the
index equal to the key, and that key is at most `n - 2`; in particular the result is never
`-1` and never a fault. -/
theorem binarySearch_dataset_never_not_found (ulongBits n key fuel : Nat) (buffer : Buffer)
    (result : Except Fault Int) (hbits : 32 ≤ ulongBits) (hn : 2 ≤ n)
    (hmax : n ≤ UINT32_MAX) (hwrite : writeValues dataset n = .ok buffer)
    (hreturn : binarySearch ulongBits fuel buffer n key = some result) :
    result = .ok (key : Int) ∧ key ≤ n - 2 ∧ result ≠ .ok (-1) := by
  unfold UINT32_MAX at hmax
  rw [writeValues_dataset n hmax] at hwrite
  have hbuffer : filled n = buffer := Except.ok.inj hwrite
  subst hbuffer
  obtain ⟨hres, hkey⟩ := binarySearch_filled_result ulongBits n key fuel result hbits hn
    (by omega) hreturn
  refine ⟨hres, hkey, ?_⟩
  rw [hres]
  intro hneg
  have := Except.ok.inj hneg
  omega

/-- Instance of the C19 statement: size 10, key 8, 64-bit `unsigned long`.  The dataset is
written, the call comes to an end with fuel 4 (probes 4, 6, 7, 8) and returns 8, which is
the key, at most `10 - 2`, and not `-1`. -/
theorem binarySearch_dataset_never_not_found_witness :
    writeValues dataset 10 = .ok (filled 10) ∧
    binarySearch 64 4 (filled 10) 10 8 = some (.ok 8) ∧
    binarySearchProbes 64 (filled 10) 9 8 4 0 = [4, 6, 7, 8] ∧
    ((.ok 8 : Except Fault Int) = .ok ((8 : Nat) : Int) ∧ 8 ≤ 10 - 2 ∧
      (.ok 8 : Except Fault Int) ≠ .ok (-1)) :=
  ⟨writeValues_dataset 10 (by decide), rfl, by decide,
    binarySearch_dataset_never_not_found 64 10 8 4 (filled 10) (.ok 8) (by decide) (by decide)
      (by decide) (writeValues_dataset 10 (by decide)) rfl⟩

/-! ## The selector is read through its first character -/

/-- C20: `getSearchType` looks at the first character of the selector argument only: for
every argument list with at least 3 arguments, two selector strings with the same first
character resolve to the same request (kind, callback, key, label and size), for instance
`"binary"` resolves like `"b"`. -/
theorem getSearchType_first_character_only (ulongBits : Nat)
    (name selector other count : String) (rest : List String)
    (hfirst : firstChar selector = firstChar other) :
    getSearchType ulongBits (name :: selector :: count :: rest).length
        (name :: selector :: count :: rest) =
      getSearchType ulongBits (name :: other :: count :: rest).length
        (name :: other :: count :: rest) := by
  unfold getSearchType
  simp only [List.length_cons]
  simp [search, getSearchTypeLoop, SEARCH_TYPE_INPUT, NUMBER_ELEMENTS_INPUT, hfirst]

/-- Instance of the C20 statement: the selectors `"binary"` and `"b"`. -/
theorem getSearchType_first_character_only_witness :
    getSearchType 64 ["search", "binary", "10"].length ["search", "binary", "10"] =
      getSearchType 64 ["search", "b", "10"].length ["search", "b", "10"] :=
  getSearchType_first_character_only 64 "search" "binary" "b" "10" [] (by decide)

/-! ## Claim about a run that finds its key -/

end SearchC

namespace MoreC

/-! ## `fgets` -/

theorem fgetsScan_stored_length :
    ∀ (room : Nat) (unread : List Char), (fgetsScan room unread).stored.length ≤ room := by
  intro room
  induction room with
  | zero => intro unread; simp [fgetsScan]
  | succ r ih =>
    intro unread
    cases unread with
    | nil => simp [fgetsScan]
    | cons c cs =>
      simp only [fgetsScan]
      split
      · simp
      · have := ih cs
        simp only [List.length_cons]
        omega

theorem fgetsScan_rest_length :
    ∀ (room : Nat) (unread : List Char),
      (fgetsScan room unread).rest.length ≤ unread.length := by
  intro room
  induction room with
  | zero => intro unread; simp [fgetsScan]
  | succ r ih =>
    intro unread
    cases unread with
    | nil => simp [fgetsScan]
    | cons c cs =>
      simp only [fgetsScan]
      split
      · simp
      · have := ih cs
        simp only [List.length_cons]
        omega

theorem fgetsScan_rest_lt (room : Nat) (c : Char) (unread : List Char) :
    (fgetsScan (room + 1) (c :: unread)).rest.length < (c :: unread).length := by
  simp only [fgetsScan]
  split
  · simp
  · have := fgetsScan_rest_length room unread
    simp only [List.length_cons]
    omega

/-- Number of loop iterations that a file without read error can still cause: none once
the end-of-file indicator is set, otherwise at most one per unread character and one more
to meet the end. -/
theorem fgets_progress (line : Option (List Char)) (file : FileState)
    (hopen : file.eof = false) (hending : file.ending = .endOfFile) :
    (if (fgets line FILE_BUFFER_SIZE file).file.eof = true then 0
      else (fgets line FILE_BUFFER_SIZE file).file.unread.length + 1)
      < file.unread.length + 1 := by
  unfold fgets FILE_BUFFER_SIZE
  simp only [hopen, hending, Bool.false_or, decide_True, Bool.and_true,
    show (256 : Nat) - 1 = 254 + 1 from rfl]
  cases hunread : file.unread with
  | nil => simp [fgetsScan]
  | cons c cs =>
    have := fgetsScan_rest_lt 254 c cs
    split
    · omega
    · simp only [List.length_cons] at this ⊢
      omega

theorem fgets_stored_length (line : Option (List Char)) (file : FileState) :
    (fgets line FILE_BUFFER_SIZE file).stored.length ≤ 255 := by
  unfold fgets FILE_BUFFER_SIZE
  exact fgetsScan_stored_length 255 file.unread

theorem fgets_ending (line : Option (List Char)) (file : FileState) :
    (fgets line FILE_BUFFER_SIZE file).file.ending = file.ending := rfl

/-- A read error never sets the end-of-file indicator. -/
theorem fgets_error_keeps_eof (line : Option (List Char)) (file : FileState)
    (hopen : file.eof = false) (hending : file.ending = .readError) :
    (fgets line FILE_BUFFER_SIZE file).file.eof = false := by
  unfold fgets
  simp [hopen, hending]

/-! ## The loop of `readFile` -/

theorem readFileLoop_paced :
    ∀ (fuel : Nat) (file : FileState) (line : Option (List Char)) (count : Nat),
      count ≤ 20 →
      wellPaced count (readFileLoop fuel file line count).trace = true ∧
        maxCount (readFileLoop fuel file line count).trace ≤ 20 ∧
        pauseCount (readFileLoop fuel file line count).trace =
          (count + readCount (readFileLoop fuel file line count).trace - 1) / 20 := by
  intro fuel
  induction fuel with
  | zero =>
    intro file line count _
    simp only [readFileLoop, wellPaced, maxCount, pauseCount, readCount]
    refine ⟨trivial, Nat.zero_le _, ?_⟩
    omega
  | succ f ih =>
    intro file line count hcount
    by_cases hopen : file.eof = false
    · have hlen := fgets_stored_length line file
      by_cases hmax : count = 20
      · obtain ⟨hpaced, hbound, hpauses⟩ :=
          ih (fgets line FILE_BUFFER_SIZE file).file (fgets line FILE_BUFFER_SIZE file).line
            (0 + 1) (by omega)
        simp only [readFileLoop, hopen, LINE_COUNT_MAX, hmax, if_true]
        refine ⟨?_, ?_, ?_⟩
        · simp only [wellPaced, hpaced, decide_True, Bool.and_true,
            decide_eq_true (show 0 < 20 by omega), decide_eq_true hlen]
        · simp only [maxCount]
          omega
        · simp only [pauseCount, readCount, hpauses]
          omega
      · obtain ⟨hpaced, hbound, hpauses⟩ :=
          ih (fgets line FILE_BUFFER_SIZE file).file (fgets line FILE_BUFFER_SIZE file).line
            (count + 1) (by omega)
        simp only [readFileLoop, hopen, LINE_COUNT_MAX, hmax, if_true, if_false]
        refine ⟨?_, ?_, ?_⟩
        · simp only [wellPaced, hpaced, decide_True, Bool.and_true,
            decide_eq_true (show count < 20 by omega), decide_eq_true hlen]
        · simp only [maxCount]
          omega
        · simp only [pauseCount, readCount, hpauses]
          omega
    · have hclosed : file.eof = true := by simpa using hopen
      simp only [readFileLoop, hclosed, Bool.true_eq_false, if_false, wellPaced, maxCount,
        pauseCount, readCount]
      refine ⟨trivial, Nat.zero_le _, ?_⟩
      omega

/-- On a file without read error the loop ends: one unit of fuel per unread character and
two more are enough. -/
theorem readFileLoop_finishes :
    ∀ (fuel : Nat) (file : FileState) (line : Option (List Char)) (count : Nat),
      file.ending = .endOfFile →
      (if file.eof = true then 0 else file.unread.length + 1) < fuel →
      (readFileLoop fuel file line count).finished = true := by
  intro fuel
  induction fuel with
  | zero => intro file line count _ h; omega
  | succ f ih =>
    intro file line count hending hfuel
    by_cases hopen : file.eof = false
    · have hprog := fgets_progress line file hopen hending
      have hmeasure : (if (fgets line FILE_BUFFER_SIZE file).file.eof = true then 0
          else (fgets line FILE_BUFFER_SIZE file).file.unread.length + 1) < f := by
        rw [if_neg (by simp [hopen])] at hfuel
        omega
      have hnext : (fgets line FILE_BUFFER_SIZE file).file.ending = .endOfFile := by
        rw [fgets_ending, hending]
      by_cases hmax : count = LINE_COUNT_MAX
      · simp only [readFileLoop, hopen, hmax, if_true]
        exact ih _ _ _ hnext hmeasure
      · simp only [readFileLoop, hopen, hmax, if_true, if_false]
        exact ih _ _ _ hnext hmeasure
    · have hclosed : file.eof = true := by simpa using hopen
      simp [readFileLoop, hclosed]

/-- On a file whose reads end in an error the loop never ends: `feof` stays false. -/
theorem readFileLoop_error_never_finishes :
    ∀ (fuel : Nat) (file : FileState) (line : Option (List Char)) (count : Nat),
      file.ending = .readError → file.eof = false →
      (readFileLoop fuel file line count).finished = false := by
  intro fuel
  induction fuel with
  | zero => intro file line count _ _; rfl
  | succ f ih =>
    intro file line count hending hopen
    have hnext : (fgets line FILE_BUFFER_SIZE file).file.ending = .readError := by
      rw [fgets_ending, hending]
    have hstill := fgets_error_keeps_eof line file hopen hending
    by_cases hmax : count = LINE_COUNT_MAX
    · simp only [readFileLoop, hopen, hmax, if_true]
      exact ih _ _ _ hnext hstill
    · simp only [readFileLoop, hopen, hmax, if_true, if_false]
      exact ih _ _ _ hnext hstill

/-- The steps made within some fuel are the first steps made within more fuel. -/
theorem readFileLoop_trace_prefix :
    ∀ (fuel : Nat) (file : FileState) (line : Option (List Char)) (count : Nat),
      (readFileLoop fuel file line count).trace <+:
        (readFileLoop (fuel + 1) file line count).trace := by
  intro fuel
  induction fuel with
  | zero => intro file line count; exact List.nil_prefix
  | succ f ih =>
    intro file line count
    by_cases hopen : file.eof = false
    · by_cases hmax : count = LINE_COUNT_MAX
      · simp only [readFileLoop, hopen, hmax, if_true, List.cons_prefix_cons, true_and]
        exact ih _ _ _
      · simp only [readFileLoop, hopen, hmax, if_true, if_false, List.cons_prefix_cons,
          true_and]
        exact ih _ _ _
    · have hclosed : file.eof = true := by simpa using hopen
      simp [readFileLoop, hclosed]

/-! ## Claim about the pauses of `readFile` -/

/-- C15 as stated fails at the end of a file: on a file of 20 lines whose last line has no
new-line, read without error, `readFile` makes exactly 20 reads, the twentieth meets the
end of the file, the loop ends, the function returns `true`, and no pause is made after
these 20 reads. -/
theorem readFile_twenty_reads_no_pause :
    (readFile 41 (some { characters := sampleLines 19 ++ ['a'], ending := .endOfFile })).returned
      = some true ∧
    readCount
      (readFile 41 (some { characters := sampleLines 19 ++ ['a'], ending := .endOfFile })).trace
      = 20 ∧
    pauseCount
      (readFile 41 (some { characters := sampleLines 19 ++ ['a'], ending := .endOfFile })).trace
      = 0 := by
  decide

/-- C15, amended: at every stage of printing a file, whether its reads end at the end of
the file or in a read error, `readFile` has paused exactly before each read that follows
20 reads made since the previous pause (or since the start), and at no other point; after
20 reads it pauses only if the loop goes on, so after `r` reads it has made `(r - 1) / 20`
pauses.  Every read takes at most 255 characters, the counter is set to 0 by each pause
and never exceeds 20.  On a file read without error `readFile` comes to an end and returns
`true`; when the reads end in an error it never returns. -/
theorem readFile_paced (characters : List Char) (ending : Ending) (fuel : Nat) :
    (∃ trace, (readFile fuel (some { characters := characters, ending := ending })).trace
        = Event.count 0 :: trace ∧
      wellPaced 0 trace = true ∧ maxCount trace ≤ 20 ∧
      pauseCount trace = (readCount trace - 1) / 20) ∧
    (readFile (characters.length + 2)
      (some { characters := characters, ending := .endOfFile })).returned = some true ∧
    (readFile fuel (some { characters := characters, ending := .readError })).returned
      = none := by
  refine ⟨?_, ?_, ?_⟩
  · obtain ⟨hpaced, hbound, hpauses⟩ :=
      readFileLoop_paced fuel
        { unread := characters, ending := ending, eof := false, error := false } none 0
        (by omega)
    refine ⟨_, rfl, hpaced, hbound, ?_⟩
    rw [hpauses, Nat.zero_add]
  · have hdone := readFileLoop_finishes (characters.length + 2)
      { unread := characters, ending := .endOfFile, eof := false, error := false } none 0
      rfl (by simp)
    simp only [readFile, hdone, if_true]
  · have hrunning := readFileLoop_error_never_finishes fuel
      { unread := characters, ending := .readError, eof := false, error := false } none 0
      rfl rfl
    simp only [readFile, hrunning, Bool.false_eq_true, if_false]

end MoreC
